import Mathlib

/-!
# MiniQuest adventure planner — verification of the coordination pipeline

Shallow embedding, in Lean 4, of the pipeline-coordination logic of the
`miniquest-adventure-planner` repository:

* `ResearchCache` (backend/app/agents/research/research_cache.py)
* the parallel enrichment stage of `TavilyResearchAgent`
  (backend/app/agents/discovery/discovery_agent.py)
* the typo-tolerant venue matcher and route helpers of
  `LangGraphCoordinator` (backend/app/agents/coordination/langgraph_coordinator.py)
* the URL builder and address validator of `EnhancedRoutingAgent`
  (backend/app/agents/routing/enhanced_routing_agent.py)
* the staged workflow with its single conditional branch.

Modelling conventions:
* wall-clock instants (`datetime.now()`) are explicit natural-number
  parameters; a `timedelta` is a natural number of the same unit;
* the MD5 digest used by `ResearchCache._make_key` is modelled by the
  normalized pre-image string itself (the digest of equal strings is equal,
  which is the only property the pipeline relies on);
* Python dicts that hold cache entries are modelled as insertion-ordered
  association lists, matching dict iteration order; overwriting a present
  key keeps its position, inserting a fresh key appends;
* the concurrent fan-out (`asyncio.gather`) is modelled by running the
  per-venue tasks in input order; `gather` reassembles results in input
  order, and each task touches the shared cache only under distinct keys
  in the scenarios proved here;
* Python floats are modelled by `ℚ`.
-/

namespace MiniQuest

/-! ## Basic string helpers (Python semantics) -/

/-- Python `str.strip()` on a character list: drop whitespace from both ends. -/
def trimChars (l : List Char) : List Char :=
  ((l.dropWhile Char.isWhitespace).reverse.dropWhile Char.isWhitespace).reverse

/-- Python `str.strip()`. -/
def pyStrip (s : String) : String := String.mk (trimChars s.data)

/-- Python `str.lower()` (ASCII). -/
def pyLower (s : String) : String := String.mk (s.data.map Char.toLower)

/-- Python `str.upper()` (ASCII). -/
def pyUpper (s : String) : String := String.mk (s.data.map Char.toUpper)

/-- Python `s.lower().strip()` as used for cache keys and venue matching. -/
def pyNormalize (s : String) : String := pyStrip (pyLower s)

/-- Helper for `pySplit`: split on whitespace runs, accumulating the current
word (reversed). -/
def pySplitAux : List Char → List Char → List (List Char)
  | [], acc => if acc.isEmpty then [] else [acc.reverse]
  | c :: rest, acc =>
    if c.isWhitespace then
      if acc.isEmpty then pySplitAux rest [] else acc.reverse :: pySplitAux rest []
    else pySplitAux rest (c :: acc)

/-- Python `str.split()` with no argument: split on runs of whitespace,
discarding empty pieces. -/
def pySplit (s : String) : List String :=
  (pySplitAux s.data []).map String.mk

/-- Python `str.split(sep)` for a single-character separator (keeps empty
pieces, and yields `[""]` on the empty string). -/
def splitOnChar (sep : Char) : List Char → List (List Char)
  | [] => [[]]
  | c :: rest =>
    if c = sep then [] :: splitOnChar sep rest
    else
      match splitOnChar sep rest with
      | [] => [[c]]
      | h :: t => (c :: h) :: t

/-- Python `s.split(sep)` returning strings. -/
def pySplitOn (sep : Char) (s : String) : List String :=
  (splitOnChar sep s.data).map String.mk

/-- Python substring test `a in b` on character lists. -/
def listIsInfix (a b : List Char) : Bool :=
  b.tails.any (fun t => a.isPrefixOf t)

/-- Python substring test `a in b` for strings. -/
def strIn (a b : String) : Bool := listIsInfix a.data b.data

/-! ## `ResearchCache` (research_cache.py) -/

/-- One value of `self.cache[key]` in `ResearchCache`: the payload plus the
bookkeeping fields written by `set`. -/
structure CacheEntry (α : Type) where
  data : α
  venueName : String
  createdAt : ℕ
  expiresAt : ℕ
  deriving Repr, DecidableEq

/-- The `ResearchCache` object: the entry dict (insertion-ordered association
list), TTL, capacity bound and the cumulative hit/miss counters. -/
structure ResearchCache (α : Type) where
  cache : List (String × CacheEntry α)
  ttl : ℕ
  maxSize : ℕ
  hits : ℕ
  misses : ℕ
  deriving Repr, DecidableEq

/-- `ResearchCache.__init__`. -/
def ResearchCache.init (α : Type) (ttl maxSize : ℕ) : ResearchCache α :=
  { cache := [], ttl := ttl, maxSize := maxSize, hits := 0, misses := 0 }

/-- `ResearchCache._make_key`: the key is a digest of
`f"{venue_name.lower().strip()}|{location.lower().strip()}"`; we model the
digest by the combined string itself. -/
def makeKey (venueName location : String) : String :=
  pyNormalize venueName ++ "|" ++ pyNormalize location

/-- First-match association-list lookup (Python `key in dict` / `dict[key]`). -/
def alistFind (k : String) : List (String × CacheEntry α) → Option (CacheEntry α)
  | [] => none
  | (k', v) :: rest => if k' = k then some v else alistFind k rest

/-- Remove the (first) binding of a key (Python `del dict[key]`). -/
def alistErase (k : String) : List (String × CacheEntry α) → List (String × CacheEntry α)
  | [] => []
  | (k', v) :: rest => if k' = k then rest else (k', v) :: alistErase k rest

/-- Python `dict[key] = value`: overwrite in place if present, else append. -/
def alistInsert (k : String) (v : CacheEntry α) :
    List (String × CacheEntry α) → List (String × CacheEntry α)
  | [] => [(k, v)]
  | (k', v') :: rest =>
    if k' = k then (k, v) :: rest else (k', v') :: alistInsert k v rest

/-- The scan underlying Python's `min` with a key function: keep the current
best, replacing it only when a strictly smaller `created_at` appears (so the
first minimum in iteration order wins). -/
def oldestKeyAux : List (String × CacheEntry α) → String → CacheEntry α → String
  | [], bk, _ => bk
  | (k, v) :: rest, bk, bv =>
    if v.createdAt < bv.createdAt then oldestKeyAux rest k v
    else oldestKeyAux rest bk bv

/-- `min(self.cache.keys(), key=lambda k: self.cache[k]['created_at'])`:
the first key (in dict order) holding the minimal `created_at`. -/
def oldestKey : List (String × CacheEntry α) → Option String
  | [] => none
  | (k, v) :: rest => some (oldestKeyAux rest k v)

/-- `ResearchCache.get`, at wall-clock instant `now`. Returns the payload (or
`None`) together with the updated cache object. -/
def ResearchCache.get (c : ResearchCache α) (venueName location : String) (now : ℕ) :
    Option α × ResearchCache α :=
  let key := makeKey venueName location
  match alistFind key c.cache with
  | none => (none, { c with misses := c.misses + 1 })
  | some entry =>
    if entry.expiresAt < now then
      (none, { c with cache := alistErase key c.cache, misses := c.misses + 1 })
    else
      (some entry.data, { c with hits := c.hits + 1 })

/-- `ResearchCache.set`, at wall-clock instant `now`.

The Python code evicts before computing the key: when
`len(self.cache) >= self.max_size` it deletes the entry whose `created_at`
is minimal, then writes the new binding.  (With `max_size = 0` and an empty
dict the Python `min` would raise; that state is unreachable for the
configured sizes and is excluded by hypothesis in the theorems below.) -/
def ResearchCache.set (c : ResearchCache α) (venueName location : String)
    (data : α) (now : ℕ) : ResearchCache α :=
  let store :=
    if c.maxSize ≤ c.cache.length then
      match oldestKey c.cache with
      | some k => alistErase k c.cache
      | none => c.cache
    else c.cache
  let key := makeKey venueName location
  let entry : CacheEntry α :=
    { data := data, venueName := venueName, createdAt := now, expiresAt := now + c.ttl }
  { c with cache := alistInsert key entry store }

/-- `ResearchCache.clear`. -/
def ResearchCache.clear (c : ResearchCache α) : ResearchCache α :=
  { c with cache := [], hits := 0, misses := 0 }

/-- Python's `f"{(hits / total * 100):.1f}"`, rendered from the integer number
of tenths of a percent (exact for every rate that the proved scenarios
reach). -/
def formatTenthsPercent (hits total : ℕ) : String :=
  let tenths := hits * 1000 / total
  toString (tenths / 10) ++ "." ++ toString (tenths % 10)

/-- The statistics record returned by `ResearchCache.get_stats`. -/
structure CacheStats where
  size : ℕ
  maxSize : ℕ
  hits : ℕ
  misses : ℕ
  hitRate : String
  timeSavedEstimate : String
  deriving Repr, DecidableEq

/-- `ResearchCache.get_stats`: the derived hit rate is computed from the
cumulative counters and formatted with one decimal digit. -/
def ResearchCache.getStats (c : ResearchCache α) : CacheStats :=
  let total := c.hits + c.misses
  let hitRate := if 0 < total then formatTenthsPercent c.hits total else "0.0"
  { size := c.cache.length
    maxSize := c.maxSize
    hits := c.hits
    misses := c.misses
    hitRate := hitRate ++ "%"
    timeSavedEstimate := toString (c.hits * 2) ++ "s" }

/-! ## `TavilyResearchAgent` enrichment stage (discovery_agent.py) -/

/-- A candidate venue dict: `name` plus the optional address fields read by
`_convert_to_enhanced_locations` (`vtype` stands for the remaining payload,
carried through unchanged).  A Python value that is absent or falsy is
`none` / the empty string. -/
structure Venue where
  name : String
  address : Option String := none
  addressHint : Option String := none
  neighborhood : Option String := none
  vtype : String := ""
  deriving Repr, DecidableEq

/-- The venue profile produced by `_research_venue` / `_create_fallback_profile`:
the original venue dict plus the research fields the pipeline reads. -/
structure VenueProfile where
  venue : Venue
  researchStatus : String
  researchConfidence : ℚ
  currentInfo : String
  comprehensiveText : String
  totalInsights : ℕ
  deriving Repr, DecidableEq

/-- `TavilyResearchAgent._create_fallback_profile`. -/
def fallbackProfile (venue : Venue) (_location : String) : VenueProfile :=
  { venue := venue
    researchStatus := "failed"
    researchConfidence := mkRat 1 5
    currentInfo := "Could not research " ++ venue.name ++ " effectively"
    comprehensiveText := ""
    totalInsights := 0 }

/-- `TavilyResearchAgent._research_venue_safe`: check the cache, otherwise run
the enrichment call (whose outcome — a profile, or a raised exception — is the
`outcome` argument), cache a non-failed result, and convert any exception into
the degraded fallback profile.  Cached profiles are non-empty dicts, so the
Python truthiness test `if cached:` is modelled by `Option.isSome`. -/
def researchVenueSafe (useCache : Bool) (outcome : Except Unit VenueProfile)
    (c : ResearchCache VenueProfile) (venue : Venue) (location : String) (now : ℕ) :
    VenueProfile × ResearchCache VenueProfile :=
  let afterMiss := fun (c' : ResearchCache VenueProfile) =>
    match outcome with
    | .ok result =>
      let c'' :=
        if useCache ∧ result.researchStatus ≠ "failed" ∧ result.researchStatus ≠ "unknown"
        then c'.set venue.name location result now
        else c'
      (result, c'')
    | .error _ => (fallbackProfile venue location, c')
  if useCache then
    match c.get venue.name location now with
    | (some cached, c') => (cached, c')
    | (none, c') => afterMiss c'
  else afterMiss c

/-- The fan-out over the selected venues.  `asyncio.gather` launches one
`_research_venue_safe` task per selected venue and reassembles the results in
input order; the shared cache is threaded through the tasks in that order.
`i` is the position of the first venue in the selected list (the collaborator
outcome of venue `j` is `outcomes j`). -/
def researchAll (useCache : Bool) (outcomes : ℕ → Except Unit VenueProfile)
    (location : String) (now : ℕ) :
    List Venue → ℕ → ResearchCache VenueProfile →
    List VenueProfile × ResearchCache VenueProfile
  | [], _, c => ([], c)
  | v :: rest, i, c =>
    let step := researchVenueSafe useCache (outcomes i) c v location now
    let tail := researchAll useCache outcomes location now rest (i + 1) step.2
    (step.1 :: tail.1, tail.2)

/-- The `research_stats` block assembled by `TavilyResearchAgent.process`. -/
structure ResearchStats where
  totalVenues : ℕ
  successfulResearch : ℕ
  totalInsights : ℕ
  avgConfidence : ℚ
  cacheHits : ℕ
  cacheHitRate : String
  deriving Repr, DecidableEq

/-- `TavilyResearchAgent.process`: select the first `max_venues` venues, fan
out the per-venue research, and aggregate the statistics.  (In the empty-venue
early return the Python stats dict carries no `cache_hit_rate` key; readers
default it to `"0%"`, which is the value used here.) -/
def tavilyProcess (useCache : Bool) (outcomes : ℕ → Except Unit VenueProfile)
    (venues : List Venue) (location : String) (maxVenues : ℕ)
    (c : ResearchCache VenueProfile) (now : ℕ) :
    List VenueProfile × ResearchStats × ResearchCache VenueProfile :=
  if venues = [] then
    ([], { totalVenues := 0, successfulResearch := 0, totalInsights := 0,
           avgConfidence := 0, cacheHits := 0, cacheHitRate := "0%" }, c)
  else
    let selected := venues.take maxVenues
    let ra := researchAll useCache outcomes location now selected 0 c
    let researched := ra.1
    let c' := ra.2
    let successful :=
      (researched.filter
        (fun v => v.researchStatus ≠ "failed" ∧ v.researchStatus ≠ "unknown")).length
    let insights := (researched.map (·.totalInsights)).sum
    let avg : ℚ :=
      if researched ≠ [] then
        (researched.map (·.researchConfidence)).sum / (researched.length : ℚ)
      else 0
    let stats :=
      if useCache then
        let cs := c'.getStats
        { totalVenues := researched.length, successfulResearch := successful,
          totalInsights := insights, avgConfidence := avg,
          cacheHits := cs.hits, cacheHitRate := cs.hitRate }
      else
        { totalVenues := researched.length, successfulResearch := successful,
          totalInsights := insights, avgConfidence := avg,
          cacheHits := 0, cacheHitRate := "0%" }
    (researched, stats, c')

/-- `ResearchCache.cleanup_expired`. -/
def ResearchCache.cleanupExpired (c : ResearchCache α) (now : ℕ) : ResearchCache α :=
  { c with cache := c.cache.filter fun p => ¬ p.2.expiresAt < now }

/-- One call of the public cache API (used to state the size invariant over
arbitrary operation sequences). -/
inductive CacheOp (α : Type) where
  | get (venueName location : String) (now : ℕ)
  | set (venueName location : String) (data : α) (now : ℕ)
  | clear
  | cleanupExpired (now : ℕ)

/-- Apply one cache operation. -/
def applyOp : CacheOp α → ResearchCache α → ResearchCache α
  | .get n l t, c => (c.get n l t).2
  | .set n l d t, c => c.set n l d t
  | .clear, c => c.clear
  | .cleanupExpired t, c => c.cleanupExpired t

/-- Apply a sequence of cache operations, oldest first. -/
def applyOps (ops : List (CacheOp α)) (c : ResearchCache α) : ResearchCache α :=
  ops.foldl (fun c op => applyOp op c) c

/-- Well-formedness of the modelled entry dict: Python dict keys are unique. -/
def CacheWF (c : ResearchCache α) : Prop := (c.cache.map Prod.fst).Nodup

/-- Eight discovered candidates for the fan-out scenario in which three
enrichment calls raise. -/
def fanoutVenues : List Venue :=
  [{ name := "V1" }, { name := "V2" }, { name := "V3" }, { name := "V4" },
   { name := "V5" }, { name := "V6" }, { name := "V7" }, { name := "V8" }]

/-- A successfully researched profile used by the fan-out scenario. -/
def fanoutProfile : VenueProfile :=
  { venue := { name := "researched" }, researchStatus := "good",
    researchConfidence := 1, currentInfo := "", comprehensiveText := "ok",
    totalInsights := 3 }

/-- Enrichment outcomes for the fan-out scenario: the calls for candidates
1, 4 and 6 raise, the other five succeed. -/
def fanoutOutcomes : ℕ → Except Unit VenueProfile := fun i =>
  if i = 1 ∨ i = 4 ∨ i = 6 then .error () else .ok fanoutProfile

/-- The six discovered coffee-shop candidates of the warm-cache scenario
(preferences `["coffee shops"]`, location `"Boston, MA"`). -/
def scenarioVenues : List Venue :=
  [{ name := "Thinking Cup" }, { name := "Tatte Bakery" }, { name := "George Howell" },
   { name := "Ogawa Coffee" }, { name := "Jaho Coffee" }, { name := "Render Coffee" }]

/-- Enrichment outcomes for the warm-cache scenario: every call succeeds with
a cacheable (`good`) profile. -/
def scenarioOutcomes : ℕ → Except Unit VenueProfile := fun i =>
  .ok { venue := { name := (scenarioVenues.getD i { name := "" }).name }
        researchStatus := "good"
        researchConfidence := mkRat 9 10
        currentInfo := ""
        comprehensiveText := "fresh research"
        totalInsights := 2 }

/-- First enrichment run of the scenario: empty cache, instant 0. -/
def scenarioRun1 : List VenueProfile × ResearchStats × ResearchCache VenueProfile :=
  tavilyProcess true scenarioOutcomes scenarioVenues "Boston, MA" 8
    (ResearchCache.init VenueProfile 60 200) 0

/-- Second, identical enrichment run, immediately afterwards (instant 1,
within the TTL), against the cache the first run produced. -/
def scenarioRun2 : List VenueProfile × ResearchStats × ResearchCache VenueProfile :=
  tavilyProcess true scenarioOutcomes scenarioVenues "Boston, MA" 8 scenarioRun1.2.2 1

/-! ## `difflib.SequenceMatcher` ratio (Python standard library)

`_calculate_string_similarity` calls `SequenceMatcher(None, str1, str2).ratio()`.
The strings compared are short venue names (far below the 200-character
autojunk threshold), so the algorithm is plain Ratcliff–Obershelp: repeatedly
take the earliest longest matching block and recurse on both sides;
`ratio = 2 * (total matched) / (len(a) + len(b))`, and `1.0` when both strings
are empty. -/

/-- Length of the longest common prefix of two character lists (the run length
of a matching block starting at a given pair of positions). -/
def matchLen : List Char → List Char → ℕ
  | x :: xs, y :: ys => if x = y then matchLen xs ys + 1 else 0
  | _, _ => 0

/-- Scan candidate starting positions in order, keeping the first block that
strictly beats the best size so far (difflib keeps the earliest longest
block). -/
def flmAux (a b : List Char) : List (ℕ × ℕ) → ℕ × ℕ × ℕ → ℕ × ℕ × ℕ
  | [], best => best
  | (i, j) :: rest, best =>
    let k := matchLen (a.drop i) (b.drop j)
    if best.2.2 < k then flmAux a b rest (i, j, k) else flmAux a b rest best

/-- `SequenceMatcher.find_longest_match` with no junk: the earliest longest
matching block `(i, j, size)` of `a` and `b`. -/
def findLongestMatch (a b : List Char) : ℕ × ℕ × ℕ :=
  flmAux a b
    ((List.range a.length).flatMap fun i => (List.range b.length).map fun j => (i, j))
    (0, 0, 0)

/-- Total size of all matching blocks (the recursive divide step of
`get_matching_blocks`).  The fuel argument only serves termination; every
recursion shrinks `a.length + b.length` by at least 2, so
`a.length + b.length + 1` units are always enough. -/
def matchingTotal : ℕ → List Char → List Char → ℕ
  | 0, _, _ => 0
  | fuel + 1, a, b =>
    let m := findLongestMatch a b
    if m.2.2 = 0 then 0
    else
      matchingTotal fuel (a.take m.1) (b.take m.2.1) + m.2.2 +
        matchingTotal fuel (a.drop (m.1 + m.2.2)) (b.drop (m.2.1 + m.2.2))

/-- `SequenceMatcher.ratio()`. -/
def seqRatio (a b : List Char) : ℚ :=
  let t := a.length + b.length
  if t = 0 then 1 else mkRat (2 * matchingTotal (t + 1) a b) t

/-! ## Typo-tolerant venue matching (langgraph_coordinator.py) -/

/-- An enhanced location entry (`{"name": ..., "address": ...}`) as produced by
`_convert_to_enhanced_locations` and consumed by the matcher and routing. -/
structure LocEntry where
  name : String
  address : String
  deriving Repr, DecidableEq

/-- `LangGraphCoordinator._calculate_string_similarity`: fast-reject when the
lengths differ by more than 5 characters, otherwise the `SequenceMatcher`
ratio. -/
def calculateStringSimilarity (s1 s2 : String) : ℚ :=
  if 5 < ((s1.length : ℤ) - (s2.length : ℤ)).natAbs then 0
  else seqRatio s1.data s2.data

/-- The whitespace-token set of a string (`set(s.split())`). -/
def wordSet (s : String) : Finset String := (pySplit s).toFinset

/-- The token-overlap score `|intersection| / |union|` (0 when the union is
empty). -/
def overlapScore (w1 w2 : Finset String) : ℚ :=
  if 0 < (w1 ∪ w2).card then mkRat ((w1 ∩ w2).card : ℤ) ((w1 ∪ w2).card) else 0

/-- The running best (`best_match`, `best_idx`, `best_score`, `match_type`) of
the candidate scan for one mention. -/
structure BestMatch where
  best? : Option (LocEntry × ℕ)
  score : ℚ
  mtype : Option String
  deriving Repr, DecidableEq

/-- The initial running best (`None`, score `0`). -/
def initialBest : BestMatch := { best? := none, score := 0, mtype := none }

/-- The inner candidate loop of
`_match_venues_to_locations_with_typo_tolerance`: score one mention against
the indexed candidates, skipping used indices, with the four tiers and the
short-circuit on an exact match. -/
def scanLocs (venueLower : String) (venueWords : Finset String) (used : Finset ℕ) :
    List (ℕ × LocEntry) → BestMatch → BestMatch
  | [], best => best
  | (idx, loc) :: rest, best =>
    if idx ∈ used then scanLocs venueLower venueWords used rest best
    else
      let locName := pyNormalize loc.name
      let locWords := wordSet locName
      if venueLower = locName then
        { best? := some (loc, idx), score := 1, mtype := some "exact" }
      else if strIn venueLower locName ∨ strIn locName venueLower then
        scanLocs venueLower venueWords used rest
          (if best.score < mkRat 9 10 then
            { best? := some (loc, idx), score := mkRat 9 10, mtype := some "substring" }
          else best)
      else
        let cs := calculateStringSimilarity venueLower locName
        if mkRat 17 20 ≤ cs ∧ best.score < cs then
          scanLocs venueLower venueWords used rest
            { best? := some (loc, idx), score := cs, mtype := some "typo_tolerant" }
        else if venueWords.Nonempty ∧ locWords.Nonempty then
          let ov := overlapScore venueWords locWords
          if mkRat 1 2 ≤ ov ∧ best.score < ov then
            scanLocs venueLower venueWords used rest
              { best? := some (loc, idx), score := ov, mtype := some "word_overlap" }
          else scanLocs venueLower venueWords used rest best
        else scanLocs venueLower venueWords used rest best

/-- One matched mention: the accepted location, its index in the candidate
list, and the per-mention diagnostics (score and tier). -/
structure MatchRec where
  mention : String
  loc : LocEntry
  idx : ℕ
  score : ℚ
  mtype : Option String
  deriving Repr, DecidableEq

/-- The outer mention loop: process mentions in order, accept the running best
when its score reaches the 0.5 floor, and mark the accepted index used. -/
def matchLoop (locs : List LocEntry) : List String → Finset ℕ → List MatchRec
  | [], _ => []
  | venueName :: rest, used =>
    let venueLower := pyNormalize venueName
    let venueWords := wordSet venueLower
    let best := scanLocs venueLower venueWords used locs.enum initialBest
    match best.best? with
    | some (loc, idx) =>
      if mkRat 1 2 ≤ best.score then
        { mention := venueName, loc := loc, idx := idx,
          score := best.score, mtype := best.mtype } :: matchLoop locs rest (insert idx used)
      else matchLoop locs rest used
    | none => matchLoop locs rest used

/-- `_match_venues_to_locations_with_typo_tolerance`: the ordered list of
matched locations. -/
def matchVenuesToLocations (venuesUsed : List String) (locs : List LocEntry) :
    List LocEntry :=
  (matchLoop locs venuesUsed ∅).map (·.loc)

/-- The score one candidate offers a mention under the tier rules, taken in
priority order (exact, substring, typo-tolerant, token-overlap), without the
running-best interaction.  Used to state that the scan keeps a best-scoring
candidate. -/
def tierScore (venueLower : String) (venueWords : Finset String) (loc : LocEntry) : ℚ :=
  let locName := pyNormalize loc.name
  let locWords := wordSet locName
  if venueLower = locName then 1
  else if strIn venueLower locName ∨ strIn locName venueLower then mkRat 9 10
  else
    let cs := calculateStringSimilarity venueLower locName
    if mkRat 17 20 ≤ cs then cs
    else if venueWords.Nonempty ∧ locWords.Nonempty ∧ mkRat 1 2 ≤ overlapScore venueWords locWords then
      overlapScore venueWords locWords
    else 0

/-- The relation between an accepted match's score/tier diagnostics and its
location, as the four tier rules dictate: exact equality scores 1, substring
containment scores 0.9, character similarity counts only at ratio ≥ 0.85 with
a length gap of at most 5, token overlap counts only at ≥ 0.5. -/
def TierP (venueLower : String) (venueWords : Finset String) (loc : LocEntry)
    (score : ℚ) (mtype : Option String) : Prop :=
  let locName := pyNormalize loc.name
  let locWords := wordSet locName
  (mtype = some "exact" ∧ score = 1 ∧ venueLower = locName) ∨
  (mtype = some "substring" ∧ score = mkRat 9 10 ∧
    (strIn venueLower locName = true ∨ strIn locName venueLower = true)) ∨
  (mtype = some "typo_tolerant" ∧ score = calculateStringSimilarity venueLower locName ∧
    mkRat 17 20 ≤ score ∧ ((venueLower.length : ℤ) - (locName.length : ℤ)).natAbs ≤ 5) ∨
  (mtype = some "word_overlap" ∧ score = overlapScore venueWords locWords ∧
    mkRat 1 2 ≤ score ∧ venueWords.Nonempty ∧ locWords.Nonempty)

/-! ## Route synthesis (enhanced_routing_agent.py, langgraph_coordinator.py) -/

/-- The UTF-8 encoding of one code point, as byte values. -/
def utf8Bytes (c : Char) : List ℕ :=
  let n := c.toNat
  if n < 0x80 then [n]
  else if n < 0x800 then [0xC0 + n / 64, 0x80 + n % 64]
  else if n < 0x10000 then [0xE0 + n / 4096, 0x80 + n / 64 % 64, 0x80 + n % 64]
  else [0xF0 + n / 262144, 0x80 + n / 4096 % 64, 0x80 + n / 64 % 64, 0x80 + n % 64]

/-- `urllib.parse.quote` with the default `safe='/'` leaves exactly
`ALPHA / DIGIT / "_" / "." / "-" / "~" / "/"` unencoded. -/
def isUrlSafeByte (b : ℕ) : Bool :=
  (0x41 ≤ b ∧ b ≤ 0x5A) ∨ (0x61 ≤ b ∧ b ≤ 0x7A) ∨ (0x30 ≤ b ∧ b ≤ 0x39) ∨
    b = 0x5F ∨ b = 0x2E ∨ b = 0x2D ∨ b = 0x7E ∨ b = 0x2F

/-- Upper-case hexadecimal digit. -/
def hexDigit (n : ℕ) : Char :=
  if n < 10 then Char.ofNat ('0'.toNat + n) else Char.ofNat ('A'.toNat + n - 10)

/-- `urllib.parse.quote(s)` (on the UTF-8 encoding of the string). -/
def urlQuote (s : String) : String :=
  String.mk ((s.data.flatMap utf8Bytes).flatMap fun b =>
    if isUrlSafeByte b then [Char.ofNat b]
    else ['%', hexDigit (b / 16), hexDigit (b % 16)])

/-- The Google Maps directions URL template shared by both URL builders:
origin, destination, an optional `waypoints` parameter joining the
percent-encoded waypoints with `|`, and the travel mode. -/
def renderDirUrl (origin destination : String) (waypoints : List String)
    (mode : String) : String :=
  "https://www.google.com/maps/dir/?api=1" ++
    "&origin=" ++ urlQuote origin ++
    "&destination=" ++ urlQuote destination ++
    (if waypoints ≠ [] then
      "&waypoints=" ++ String.intercalate "|" (waypoints.map urlQuote)
    else "") ++
    "&travelmode=" ++ mode

/-- A prepared route stop (`{'name': ..., 'address': ...}`). -/
structure RouteStop where
  name : String
  address : String
  deriving Repr, DecidableEq

/-- The per-mode waypoint ceiling of
`EnhancedRoutingAgent._build_complete_google_maps_url`:
`9 if travel_mode in ['walking', 'transit'] else 23`. -/
def maxWaypointsFor (travelMode : String) : ℕ :=
  if travelMode = "walking" ∨ travelMode = "transit" then 9 else 23

/-- `EnhancedRoutingAgent._build_complete_google_maps_url`: single-destination
URL for one stop, otherwise all but the last stop become waypoints, truncated
to the per-mode ceiling (keeping the first ones). -/
def buildCompleteGoogleMapsUrl (origin : String) (allStops : List RouteStop)
    (travelMode : String) : Option String :=
  match allStops.map (·.address) with
  | [] => none
  | [addr] => some (renderDirUrl origin addr [] travelMode)
  | stopAddresses =>
    let finalDestination := (stopAddresses.getLast?).getD ""
    let waypoints0 := stopAddresses.dropLast
    let maxWaypoints := maxWaypointsFor travelMode
    let waypoints :=
      if maxWaypoints < waypoints0.length then waypoints0.take maxWaypoints
      else waypoints0
    some (renderDirUrl origin finalDestination waypoints travelMode)

/-- `LangGraphCoordinator._build_google_maps_url_from_directions`: the URL for
a Google-optimized stop list.  Note: this builder applies no waypoint ceiling;
it drops only waypoints whose address is the empty string. -/
def buildGoogleMapsUrlFromDirections (origin : String) (locations : List LocEntry)
    (mode : String) : Option String :=
  match locations.getLast? with
  | none => none
  | some lastLoc =>
    let waypoints := (locations.dropLast).map (·.address)
    let keptWaypoints := waypoints.filter (· ≠ "")
    some ("https://www.google.com/maps/dir/?api=1" ++
      "&origin=" ++ urlQuote origin ++
      "&destination=" ++ urlQuote lastLoc.address ++
      (if waypoints ≠ [] then
        "&waypoints=" ++ String.intercalate "|" (keptWaypoints.map urlQuote)
      else "") ++
      "&travelmode=" ++ mode)

/-- The waypoint-reorder step of
`LangGraphCoordinator._get_optimized_route_from_google`: take the optimizer's
`waypoint_order`, keep each index that addresses a non-final stop, and append
the original final stop as the fixed destination.  (The Python code indexes
`locations[-1]` under the caller's guarantee that `locations` is non-empty;
on an empty list the model appends nothing.) -/
def reorderByWaypointOrder (locations : List LocEntry) (optimizedOrder : List ℕ) :
    List LocEntry :=
  (optimizedOrder.filterMap fun idx =>
    if idx < locations.length - 1 then locations.get? idx else none) ++
    locations.getLast?.toList

/-- The street/road tokens accepted by `_is_valid_address`. -/
def geographicTerms : List String :=
  ["street", "st", "avenue", "ave", "road", "rd", "drive", "dr",
   "boulevard", "blvd", "place", "pl", "way", "lane", "ln", "square",
   "parkway", "highway", "route", "trail", "circle", "court", "ct"]

/-- The landmark-category tokens accepted by `_is_valid_address`. -/
def locationIndicators : List String :=
  ["park", "national", "hotel", "inn", "resort", "lodge", "campground",
   "museum", "center", "building", "house", "campus", "harbor", "beach"]

/-- `EnhancedRoutingAgent._is_valid_address`.  (`str.isdigit` is modelled for
decimal digits, the only digits these ASCII addresses contain.) -/
def isValidAddress (address : String) : Bool :=
  if address = "" ∨ (pyStrip address).length < 5 then false
  else
    let addressLower := pyLower address
    let hasGeographic := geographicTerms.any fun t => strIn t addressLower
    let hasNumbers := address.data.any Char.isDigit
    let hasLocationFormat := strIn "," address && decide (2 ≤ (pySplitOn ',' address).length)
    let hasLandmark := locationIndicators.any fun t => strIn t addressLower
    hasGeographic || hasNumbers || (hasLocationFormat && hasLandmark)

/-- `EnhancedRoutingAgent._clean_address_for_routing`: strip, drop quote
characters, collapse whitespace runs. -/
def cleanAddress (address : String) : String :=
  if address = "" then ""
  else
    let dequoted := String.mk ((trimChars address.data).filter fun ch => ch ≠ '"' ∧ ch ≠ '\'')
    String.intercalate " " (pySplit dequoted)

/-- The result of `_prepare_complete_route_data`. -/
structure RouteData where
  origin : String
  originName : String
  allStops : List RouteStop
  useUserOrigin : Bool
  deriving Repr, DecidableEq

/-- `EnhancedRoutingAgent._prepare_complete_route_data`: keep exactly the
locations whose address validates (cleaning each), fail only when none
survive, and pop the first valid stop as origin when no valid user address is
given. -/
def prepareCompleteRouteData (locations : List LocEntry)
    (userAddress : Option String) : Option RouteData :=
  let allValidStops := locations.filterMap fun loc =>
    if isValidAddress loc.address then
      some ({ name := loc.name, address := cleanAddress loc.address } : RouteStop)
    else none
  match allValidStops with
  | [] => none
  | first :: restValid =>
    if userAddress.getD "" ≠ "" ∧ isValidAddress (userAddress.getD "") then
      some { origin := cleanAddress (userAddress.getD ""), originName := "Your Location",
             allStops := first :: restValid, useUserOrigin := true }
    else
      some { origin := first.address, originName := first.name,
             allStops := restValid, useUserOrigin := false }

/-! ## The staged workflow (langgraph_coordinator.py)

One `AdventureState` per request; the node graph is
`parse_location → get_personalization → parse_intent →(conditional)
scout_venues → research_venues → summarize_research → enhance_routing →
create_adventures`, with the single conditional branch after `parse_intent`.
External collaborator outcomes are inputs (`WorkflowEnv`); `.error ()` stands
for a raised exception, which every node catches at its boundary.  A ghost
`trace` field records which nodes executed. -/

/-- The `parsed_preferences` dict; Python truthiness of the dict (the test
`not state.get("parsed_preferences")`) is emptiness of the entry list. -/
def PrefDict := List (String × String)
  deriving DecidableEq, Repr

/-- The data dict of an `IntentParserAgent.process` response. -/
structure IntentData where
  needsClarification : Bool
  clarificationMessage : Option String := none
  suggestions : Option (List String) := none
  outOfScope : Bool := false
  scopeIssue : Option String := none
  detectedCity : Option String := none
  unrelatedQuery : Bool := false
  queryType : Option String := none
  parsedPreferences : PrefDict := []
  deriving Repr, DecidableEq

/-- An `IntentParserAgent.process` response (`success` flag plus data). -/
structure IntentResponse where
  success : Bool
  data : IntentData
  deriving Repr, DecidableEq

/-- The `clarification_needed` error dict assembled by `_parse_intent_node`
(or, with only `message` and `suggestions` populated and the other keys
absent — here given their falsy defaults — by
`_should_continue_after_intent`). -/
structure ClarificationError where
  message : String
  suggestions : List String
  outOfScope : Bool := false
  scopeIssue : Option String := none
  detectedCity : Option String := none
  unrelatedQuery : Bool := false
  queryType : Option String := none
  deriving Repr, DecidableEq

/-- The workflow `error` channel: a structured clarification dict or a plain
error string. -/
inductive WError where
  | clarification (c : ClarificationError)
  | other (s : String)
  deriving Repr, DecidableEq

/-- A composed adventure (title standing for the full composition payload). -/
structure Adventure where
  title : String
  deriving Repr, DecidableEq

/-- The per-request workflow state (the `AdventureState` TypedDict), with a
ghost trace of executed nodes. -/
structure AdventureState where
  userInput : String
  userAddress : Option String
  targetLocation : Option String := none
  parsedPreferences : Option PrefDict := none
  scoutedVenues : List Venue := []
  researchedVenues : List VenueProfile := []
  enhancedLocations : List LocEntry := []
  finalAdventures : List Adventure := []
  error : Option WError := none
  trace : List String := []
  deriving Repr, DecidableEq

/-- Collaborator outcomes for one request: each is the external call's result,
or `.error ()` for a raised exception. -/
structure WorkflowEnv where
  locationResult : Except Unit (Bool × String)
  intentResult : Except Unit IntentResponse
  scoutResult : Except Unit (Bool × List Venue)
  researchResult : Except Unit (Bool × List VenueProfile)
  summaryResult : Except Unit (Bool × List VenueProfile)
  creationResult : Except Unit (Bool × List Adventure)

/-- `_create_initial_state`. -/
def initialState (userInput : String) (userAddress : Option String) :
    AdventureState :=
  { userInput := userInput, userAddress := userAddress }

/-- `_parse_location_node`: on collaborator success adopt the resolved
location, otherwise fall back to the request's user address
(`state.get("user_address", "Boston, MA")` returns the stored value, which
the initial state always populates). -/
def parseLocationNode (env : WorkflowEnv) (s : AdventureState) : AdventureState :=
  let s := { s with trace := s.trace ++ ["parse_location"] }
  match env.locationResult with
  | .ok (true, loc) => { s with targetLocation := some loc }
  | .ok (false, _) => { s with targetLocation := s.userAddress }
  | .error _ => { s with targetLocation := s.userAddress }

/-- `_get_personalization_node` in the configuration without a RAG system:
records no personalization and continues. -/
def getPersonalizationNode (s : AdventureState) : AdventureState :=
  { s with trace := s.trace ++ ["get_personalization"] }

/-- `_parse_intent_node`: a clarification signal (or a failed response) becomes
the structured `clarification_needed` error built from the parser's payload;
a successful response stores the parsed preferences; a raised exception leaves
the state unchanged. -/
def parseIntentNode (env : WorkflowEnv) (s : AdventureState) : AdventureState :=
  let s := { s with trace := s.trace ++ ["parse_intent"] }
  match env.intentResult with
  | .error _ => s
  | .ok result =>
    if ¬result.success ∨ result.data.needsClarification then
      { s with error := some (.clarification
          { message := result.data.clarificationMessage.getD "Please be more specific"
            suggestions := result.data.suggestions.getD []
            outOfScope := result.data.outOfScope
            scopeIssue := result.data.scopeIssue
            detectedCity := result.data.detectedCity
            unrelatedQuery := result.data.unrelatedQuery
            queryType := result.data.queryType }) }
    else
      { s with parsedPreferences := some result.data.parsedPreferences }

/-- The default clarification dict `_should_continue_after_intent` assigns to
its state snapshot when no usable preferences were parsed.  The assignment
never takes effect (see `shouldContinueAfterIntent`), so this payload never
reaches the final state. -/
def defaultClarification : ClarificationError :=
  { message := "What would you like to explore?"
    suggestions := ["Museums and coffee shops", "Parks and restaurants"] }

/-- `_should_continue_after_intent`, a conditional-edge router registered via
`add_conditional_edges`: it stops on a clarification error, stops when
`parsed_preferences` is absent or empty, and continues otherwise.  LangGraph
routers contribute only the returned edge label; the function's in-place write
of the default clarification into its state snapshot is discarded by the
framework, so the router is modelled as returning the decision string alone
and the workflow state passes through it unchanged. -/
def shouldContinueAfterIntent (s : AdventureState) : String :=
  match s.error with
  | some (.clarification _) => "stop"
  | _ =>
    match s.parsedPreferences with
    | some prefs => if prefs.isEmpty then "stop" else "continue"
    | none => "stop"

/-- `_scout_venues_node`. -/
def scoutVenuesNode (env : WorkflowEnv) (s : AdventureState) : AdventureState :=
  let s := { s with trace := s.trace ++ ["scout_venues"] }
  match env.scoutResult with
  | .ok (true, venues) => { s with scoutedVenues := venues }
  | _ => s

/-- `_research_venues_node` (the enrichment fan-out itself is modelled by
`tavilyProcess`; its response enters here as the collaborator outcome). -/
def researchVenuesNode (env : WorkflowEnv) (s : AdventureState) : AdventureState :=
  let s := { s with trace := s.trace ++ ["research_venues"] }
  match env.researchResult with
  | .ok (true, researched) => { s with researchedVenues := researched }
  | _ => s

/-- `_summarize_research_node`. -/
def summarizeResearchNode (env : WorkflowEnv) (s : AdventureState) : AdventureState :=
  let s := { s with trace := s.trace ++ ["summarize_research"] }
  if s.researchedVenues.isEmpty then s
  else
    match env.summaryResult with
    | .ok (true, summarized) => { s with researchedVenues := summarized }
    | _ => s

/-- `LangGraphCoordinator._extract_city_name`. -/
def extractCityName (location : String) : String :=
  if location = "" then "Boston, MA"
  else
    let parts := (pySplitOn ',' location).map pyStrip
    if parts.length = 2 ∧ ¬(parts.headD "").data.any Char.isDigit then location
    else if 3 ≤ parts.length then
      (parts.getD (parts.length - 2) "") ++ ", " ++ (parts.getD (parts.length - 1) "")
    else location

/-- `LangGraphCoordinator._convert_to_enhanced_locations`: choose each venue's
routing address by priority (full address, complete-looking address hint,
hint + city, neighborhood fallback, name + city). -/
def convertToEnhancedLocations (venues : List VenueProfile) (cityName : String) :
    List LocEntry :=
  venues.map fun p =>
    let venueName := p.venue.name
    let addr := (p.venue.address).getD ""
    if addr ≠ "" then { name := venueName, address := addr }
    else
      let hint := (p.venue.addressHint).getD ""
      if hint ≠ "" then
        let hasState := [" MA", " NY", " CA", " IL"].any fun st => strIn st (pyUpper hint)
        let hasComma := strIn "," hint
        if hasState ∨ (hasComma ∧ 2 ≤ (pySplitOn ',' hint).length) then
          { name := venueName, address := hint }
        else { name := venueName, address := hint ++ ", " ++ cityName }
      else
        let nb := (p.venue.neighborhood).getD ""
        if nb ≠ "" then
          { name := venueName, address := venueName ++ ", " ++ nb ++ ", " ++ cityName }
        else { name := venueName, address := venueName ++ ", " ++ cityName }

/-- `_enhance_routing_node`. -/
def enhanceRoutingNode (s : AdventureState) : AdventureState :=
  let s := { s with trace := s.trace ++ ["enhance_routing"] }
  let cityName := extractCityName (s.targetLocation.getD "Boston, MA")
  { s with enhancedLocations := convertToEnhancedLocations s.researchedVenues cityName }

/-- `_create_adventures_node` (composition and the per-adventure routing pass
are the collaborator outcome). -/
def createAdventuresNode (env : WorkflowEnv) (s : AdventureState) : AdventureState :=
  let s := { s with trace := s.trace ++ ["create_adventures"] }
  match env.creationResult with
  | .ok (true, adventures) => { s with finalAdventures := adventures }
  | _ => s

/-- The compiled workflow: the fixed node sequence with its one conditional
edge after `parse_intent`.  On "stop" the state after `parse_intent` is the
final state as-is: the router's discarded snapshot write contributes
nothing. -/
def runWorkflow (env : WorkflowEnv) (s0 : AdventureState) : AdventureState :=
  let s3 := parseIntentNode env (getPersonalizationNode (parseLocationNode env s0))
  if shouldContinueAfterIntent s3 = "stop" then s3
  else
    createAdventuresNode env
      (enhanceRoutingNode
        (summarizeResearchNode env
          (researchVenuesNode env
            (scoutVenuesNode env s3))))

/-- The metadata half of the `generate_adventures` return value. -/
inductive GenMeta where
  | errorMeta (e : WError)
  | okMeta (finalState : AdventureState)
  deriving Repr

/-- Whether the returned metadata carries a `clarification_needed` payload. -/
def GenMeta.isClarification : GenMeta → Bool
  | .errorMeta (.clarification _) => true
  | _ => false

/-- `LangGraphCoordinator.generate_adventures`: run the workflow; a
clarification (or any other recorded error) yields an empty composition list
plus the error payload, success yields the composed adventures. -/
def generateAdventures (env : WorkflowEnv) (userInput : String)
    (userAddress : Option String) : List Adventure × GenMeta × AdventureState :=
  let finalState := runWorkflow env (initialState userInput userAddress)
  match finalState.error with
  | some e => ([], .errorMeta e, finalState)
  | none => (finalState.finalAdventures, .okMeta finalState, finalState)

/-! ## Association-list lemmas (entry-dict bookkeeping) -/

theorem alistFind_insert_self (k : String) (v : CacheEntry α)
    (l : List (String × CacheEntry α)) : alistFind k (alistInsert k v l) = some v := by
  induction l with
  | nil => simp [alistInsert, alistFind]
  | cons p rest ih =>
    by_cases h : p.1 = k
    · simp [alistInsert, alistFind, h]
    · simpa [alistInsert, alistFind, h] using ih

theorem alistFind_insert_ne (h : k₀ ≠ k) (v : CacheEntry α)
    (l : List (String × CacheEntry α)) :
    alistFind k (alistInsert k₀ v l) = alistFind k l := by
  induction l with
  | nil => simp [alistInsert, alistFind, h]
  | cons p rest ih =>
    obtain ⟨k', v'⟩ := p
    by_cases hp : k' = k₀
    · subst hp
      have hk : k' ≠ k := h
      simp [alistInsert, alistFind, hk]
    · by_cases hk : k' = k
      · subst hk
        simp [alistInsert, alistFind, hp]
      · simp [alistInsert, alistFind, hp, hk, ih]

theorem alistFind_eq_none_of_not_mem {l : List (String × CacheEntry α)}
    (h : k ∉ l.map Prod.fst) : alistFind k l = none := by
  induction l with
  | nil => simp [alistFind]
  | cons p rest ih =>
    simp only [List.map_cons, List.mem_cons] at h
    push_neg at h
    have : p.1 ≠ k := fun hp => h.1 hp.symm
    simp [alistFind, this, ih h.2]

theorem alistFind_mem {l : List (String × CacheEntry α)}
    (h : alistFind k l = some v) : (k, v) ∈ l := by
  induction l with
  | nil => simp [alistFind] at h
  | cons p rest ih =>
    obtain ⟨k', v'⟩ := p
    by_cases hp : k' = k
    · subst hp
      have h' : v' = v := by simpa [alistFind] using h
      subst h'
      exact List.mem_cons_self _ _
    · simp only [alistFind, if_neg hp] at h
      exact List.mem_cons_of_mem _ (ih h)

theorem alistFind_of_mem_nodup {l : List (String × CacheEntry α)}
    (hnd : (l.map Prod.fst).Nodup) (h : (k, v) ∈ l) : alistFind k l = some v := by
  induction l with
  | nil => simp at h
  | cons p rest ih =>
    simp only [List.map_cons, List.nodup_cons] at hnd
    rcases List.mem_cons.mp h with h | h
    · simp [alistFind, ← h]
    · have hk : k ∈ rest.map Prod.fst := List.mem_map.mpr ⟨(k, v), h, rfl⟩
      have hne : p.1 ≠ k := fun hp => hnd.1 (hp ▸ hk)
      simp [alistFind, hne, ih hnd.2 h]

theorem alistErase_sublist (k : String) (l : List (String × CacheEntry α)) :
    List.Sublist (alistErase k l) l := by
  induction l with
  | nil => simp [alistErase]
  | cons p rest ih =>
    obtain ⟨k', v'⟩ := p
    by_cases hp : k' = k
    · rw [alistErase, if_pos hp]
      exact List.sublist_cons_self (k', v') rest
    · rw [alistErase, if_neg hp]
      exact ih.cons₂ (k', v')

theorem alistFind_erase_of_nodup {l : List (String × CacheEntry α)}
    (hnd : (l.map Prod.fst).Nodup) : alistFind k (alistErase k l) = none := by
  induction l with
  | nil => simp [alistErase, alistFind]
  | cons p rest ih =>
    obtain ⟨k', v'⟩ := p
    simp only [List.map_cons, List.nodup_cons] at hnd
    by_cases hp : k' = k
    · subst hp
      simp only [alistErase, if_pos rfl]
      exact alistFind_eq_none_of_not_mem hnd.1
    · simp [alistErase, alistFind, hp, ih hnd.2]

theorem alistFind_erase_none {l : List (String × CacheEntry α)}
    (h : alistFind k l = none) : alistFind k (alistErase k₀ l) = none := by
  induction l with
  | nil => simp [alistErase, alistFind]
  | cons p rest ih =>
    obtain ⟨k', v'⟩ := p
    by_cases hp : k' = k
    · simp [alistFind, hp] at h
    · simp only [alistFind, if_neg hp] at h
      by_cases hp₀ : k' = k₀ <;> simp [alistErase, alistFind, hp, hp₀, h, ih h]

theorem mem_map_fst_alistInsert {l : List (String × CacheEntry α)} :
    k₀ ∈ (alistInsert k v l).map Prod.fst ↔ k₀ = k ∨ k₀ ∈ l.map Prod.fst := by
  induction l with
  | nil => simp [alistInsert]
  | cons p rest ih =>
    obtain ⟨k', v'⟩ := p
    by_cases hp : k' = k
    · subst hp
      simp only [alistInsert, if_pos rfl, List.map_cons, List.mem_cons]
      simp only [eq_self_iff_true, if_true, List.map_cons, List.mem_cons]
      tauto
    · simp only [alistInsert, if_neg hp, List.map_cons, List.mem_cons, ih]
      tauto

theorem nodup_alistInsert {l : List (String × CacheEntry α)}
    (hnd : (l.map Prod.fst).Nodup) : ((alistInsert k v l).map Prod.fst).Nodup := by
  induction l with
  | nil => simp [alistInsert]
  | cons p rest ih =>
    obtain ⟨k', v'⟩ := p
    simp only [List.map_cons, List.nodup_cons] at hnd
    by_cases hp : k' = k
    · subst hp
      simpa [alistInsert] using hnd
    · simp only [alistInsert, if_neg hp, List.map_cons, List.nodup_cons]
      refine ⟨?_, ih hnd.2⟩
      intro hmem
      rcases mem_map_fst_alistInsert.mp hmem with h | h
      · exact hp h
      · exact hnd.1 h

theorem nodup_alistErase {l : List (String × CacheEntry α)}
    (hnd : (l.map Prod.fst).Nodup) : ((alistErase k l).map Prod.fst).Nodup :=
  ((alistErase_sublist k l).map Prod.fst).nodup hnd

theorem length_alistInsert_of_mem {l : List (String × CacheEntry α)}
    (h : k ∈ l.map Prod.fst) : (alistInsert k v l).length = l.length := by
  induction l with
  | nil => simp at h
  | cons p rest ih =>
    obtain ⟨k', v'⟩ := p
    by_cases hp : k' = k
    · simp [alistInsert, hp]
    · simp only [List.map_cons, List.mem_cons] at h
      rcases h with h | h
      · exact absurd h.symm hp
      · simp [alistInsert, hp, ih h]

theorem length_alistInsert_of_not_mem {l : List (String × CacheEntry α)}
    (h : k ∉ l.map Prod.fst) : (alistInsert k v l).length = l.length + 1 := by
  induction l with
  | nil => simp [alistInsert]
  | cons p rest ih =>
    obtain ⟨k', v'⟩ := p
    simp only [List.map_cons, List.mem_cons] at h
    push_neg at h
    have hp : k' ≠ k := fun hp => h.1 hp.symm
    simp [alistInsert, hp, ih h.2]

theorem length_alistErase_of_mem {l : List (String × CacheEntry α)}
    (h : k ∈ l.map Prod.fst) : (alistErase k l).length + 1 = l.length := by
  induction l with
  | nil => simp at h
  | cons p rest ih =>
    obtain ⟨k', v'⟩ := p
    by_cases hp : k' = k
    · simp [alistErase, hp]
    · simp only [List.map_cons, List.mem_cons] at h
      rcases h with h | h
      · exact absurd h.symm hp
      · simp [alistErase, hp, ih h]

theorem oldestKeyAux_spec (l : List (String × CacheEntry α)) :
    ∀ bk bv, ∃ v, ((oldestKeyAux l bk bv = bk ∧ v = bv) ∨ (oldestKeyAux l bk bv, v) ∈ l) ∧
      v.createdAt ≤ bv.createdAt ∧ ∀ p ∈ l, v.createdAt ≤ p.2.createdAt := by
  induction l with
  | nil => exact fun bk bv => ⟨bv, .inl ⟨rfl, rfl⟩, le_rfl, by simp⟩
  | cons p rest ih =>
    obtain ⟨k₀, v₀⟩ := p
    intro bk bv
    by_cases hc : v₀.createdAt < bv.createdAt
    · obtain ⟨v, hmem, hle, hmin⟩ := ih k₀ v₀
      refine ⟨v, ?_, le_trans hle (le_of_lt hc), ?_⟩
      · rcases hmem with ⟨he, hv⟩ | hmem
        · exact .inr (by simp [oldestKeyAux, hc, he, hv])
        · exact .inr (by simp only [oldestKeyAux, if_pos hc]; exact List.mem_cons_of_mem _ hmem)
      · intro q hq
        rcases List.mem_cons.mp hq with hq | hq
        · exact hq ▸ hle
        · exact hmin q hq
    · obtain ⟨v, hmem, hle, hmin⟩ := ih bk bv
      refine ⟨v, ?_, hle, ?_⟩
      · rcases hmem with ⟨he, hv⟩ | hmem
        · exact .inl ⟨by simp [oldestKeyAux, hc, he], hv⟩
        · exact .inr (by simp only [oldestKeyAux, if_neg hc]; exact List.mem_cons_of_mem _ hmem)
      · intro q hq
        rcases List.mem_cons.mp hq with hq | hq
        · have := le_of_not_lt hc
          exact hq ▸ le_trans hle this
        · exact hmin q hq

theorem oldestKey_isSome (p : String × CacheEntry α) (l : List (String × CacheEntry α)) :
    ∃ k, oldestKey (p :: l) = some k := by
  obtain ⟨k₀, v₀⟩ := p
  exact ⟨oldestKeyAux l k₀ v₀, rfl⟩

theorem oldestKey_spec {l : List (String × CacheEntry α)}
    (hnd : (l.map Prod.fst).Nodup) (h : oldestKey l = some k) :
    ∃ v, alistFind k l = some v ∧ ∀ p ∈ l, v.createdAt ≤ p.2.createdAt := by
  cases l with
  | nil => simp [oldestKey] at h
  | cons p rest =>
    obtain ⟨k₀, v₀⟩ := p
    simp only [oldestKey, Option.some.injEq] at h
    obtain ⟨v, hmem, hle, hmin⟩ := oldestKeyAux_spec rest k₀ v₀
    rcases hmem with ⟨he, hv⟩ | hmem
    · rw [← h, he]
      refine ⟨v, by simp [alistFind, hv], ?_⟩
      intro q hq
      rcases List.mem_cons.mp hq with hq | hq
      · exact hq ▸ (hv ▸ le_rfl)
      · exact hmin q hq
    · rw [← h]
      have hmem' : (oldestKeyAux rest k₀ v₀, v) ∈ (k₀, v₀) :: rest :=
        List.mem_cons_of_mem _ hmem
      refine ⟨v, alistFind_of_mem_nodup hnd hmem', ?_⟩
      intro q hq
      rcases List.mem_cons.mp hq with hq | hq
      · exact hq ▸ hle
      · exact hmin q hq

theorem alistFind_erase_ne (h : k ≠ k₀) (l : List (String × CacheEntry α)) :
    alistFind k (alistErase k₀ l) = alistFind k l := by
  induction l with
  | nil => simp [alistErase]
  | cons p rest ih =>
    obtain ⟨k', v'⟩ := p
    by_cases hp : k' = k₀
    · subst hp
      have hk : k' ≠ k := fun hk => h (hk ▸ rfl)
      simp [alistErase, alistFind, hk]
    · by_cases hk : k' = k
      · subst hk
        simp [alistErase, alistFind, hp]
      · simp [alistErase, alistFind, hp, hk, ih]

theorem length_alistInsert_le (k : String) (v : CacheEntry α)
    (l : List (String × CacheEntry α)) : (alistInsert k v l).length ≤ l.length + 1 := by
  by_cases h : k ∈ l.map Prod.fst
  · rw [length_alistInsert_of_mem h]; omega
  · rw [length_alistInsert_of_not_mem h]

theorem oldestKey_mem {l : List (String × CacheEntry α)}
    (h : oldestKey l = some k) : k ∈ l.map Prod.fst := by
  cases l with
  | nil => simp [oldestKey] at h
  | cons p rest =>
    obtain ⟨k₀, v₀⟩ := p
    simp only [oldestKey, Option.some.injEq] at h
    obtain ⟨v, hmem, -, -⟩ := oldestKeyAux_spec rest k₀ v₀
    rcases hmem with ⟨he, -⟩ | hmem
    · simp [← h, he]
    · rw [← h]
      exact List.mem_cons_of_mem _ (List.mem_map.mpr ⟨_, hmem, rfl⟩)

/-! ## C4 — cache round trip under key normalization and TTL -/

/-- **C4**: for key pairs equal after case/whitespace normalization, a `get`
performed after a `set` returns the cached payload while the TTL has not
elapsed (counting a hit); once the TTL has elapsed it returns `None`, counts a
miss, and purges the entry from the store. -/
theorem cache_get_after_set {α : Type} (c : ResearchCache α) (hwf : CacheWF c)
    (n₁ l₁ n₂ l₂ : String) (data : α) (tset tget : ℕ)
    (hn : pyNormalize n₁ = pyNormalize n₂) (hl : pyNormalize l₁ = pyNormalize l₂) :
    (tget ≤ tset + c.ttl →
        ((c.set n₁ l₁ data tset).get n₂ l₂ tget).1 = some data ∧
        ((c.set n₁ l₁ data tset).get n₂ l₂ tget).2.hits = c.hits + 1) ∧
    (tset + c.ttl < tget →
        ((c.set n₁ l₁ data tset).get n₂ l₂ tget).1 = none ∧
        ((c.set n₁ l₁ data tset).get n₂ l₂ tget).2.misses = c.misses + 1 ∧
        alistFind (makeKey n₂ l₂) ((c.set n₁ l₁ data tset).get n₂ l₂ tget).2.cache = none) := by
  have hkey : makeKey n₂ l₂ = makeKey n₁ l₁ := by rw [makeKey, makeKey, hn, hl]
  have hset : (c.set n₁ l₁ data tset).cache =
      alistInsert (makeKey n₁ l₁)
        { data := data, venueName := n₁, createdAt := tset, expiresAt := tset + c.ttl }
        (if c.maxSize ≤ c.cache.length then
          match oldestKey c.cache with
          | some k => alistErase k c.cache
          | none => c.cache
        else c.cache) := rfl
  have hstoreWf : (((if c.maxSize ≤ c.cache.length then
      match oldestKey c.cache with
      | some k => alistErase k c.cache
      | none => c.cache
    else c.cache)).map Prod.fst).Nodup := by
    by_cases hcap : c.maxSize ≤ c.cache.length
    · rw [if_pos hcap]
      rcases oldestKey c.cache with _ | k
      · exact hwf
      · exact nodup_alistErase hwf
    · rw [if_neg hcap]; exact hwf
  have hsetWf : (((c.set n₁ l₁ data tset).cache).map Prod.fst).Nodup := by
    rw [hset]; exact nodup_alistInsert hstoreWf
  have hfind : alistFind (makeKey n₂ l₂) (c.set n₁ l₁ data tset).cache =
      some { data := data, venueName := n₁, createdAt := tset, expiresAt := tset + c.ttl } := by
    rw [hkey, hset]
    exact alistFind_insert_self _ _ _
  have hhits : (c.set n₁ l₁ data tset).hits = c.hits := rfl
  have hmisses : (c.set n₁ l₁ data tset).misses = c.misses := rfl
  constructor
  · intro hfresh
    have hnotexp : ¬ (tset + c.ttl < tget) := not_lt.mpr hfresh
    constructor
    · simp [ResearchCache.get, hfind, hnotexp]
    · simp [ResearchCache.get, hfind, hnotexp, hhits]
  · intro hexp
    refine ⟨?_, ?_, ?_⟩
    · simp [ResearchCache.get, hfind, hexp]
    · simp [ResearchCache.get, hfind, hexp, hmisses]
    · simp only [ResearchCache.get, hfind]
      rw [if_pos (show (CacheEntry.expiresAt
          { data := data, venueName := n₁, createdAt := tset, expiresAt := tset + c.ttl } : ℕ)
            < tget from hexp)]
      exact alistFind_erase_of_nodup hsetWf

/-! ## C5 — capacity bound and oldest-entry eviction -/

theorem applyOp_maxSize (op : CacheOp α) (c : ResearchCache α) :
    (applyOp op c).maxSize = c.maxSize := by
  cases op with
  | get n l t =>
    simp only [applyOp, ResearchCache.get]
    split
    · rfl
    · split <;> rfl
  | set n l d t => rfl
  | clear => rfl
  | cleanupExpired t => rfl

theorem applyOp_length_le (op : CacheOp α) (c : ResearchCache α)
    (hpos : 0 < c.maxSize) (hle : c.cache.length ≤ c.maxSize) :
    (applyOp op c).cache.length ≤ c.maxSize := by
  cases op with
  | get n l t =>
    simp only [applyOp, ResearchCache.get]
    split
    · exact hle
    · split
      · exact le_trans (alistErase_sublist _ _).length_le hle
      · exact hle
  | set n l d t =>
    simp only [applyOp, ResearchCache.set]
    by_cases hcap : c.maxSize ≤ c.cache.length
    · have hlen : c.cache.length = c.maxSize := le_antisymm hle hcap
      rw [if_pos hcap]
      split
      · rename_i k heq
        have hmem : k ∈ c.cache.map Prod.fst := oldestKey_mem heq
        have herase := length_alistErase_of_mem hmem
        have hins := length_alistInsert_le (makeKey n l)
          { data := d, venueName := n, createdAt := t, expiresAt := t + c.ttl }
          (alistErase k c.cache)
        omega
      · rename_i heq
        cases hcc : c.cache with
        | nil =>
          simpa [alistInsert] using hpos
        | cons p rest =>
          rw [hcc] at heq
          obtain ⟨k, hk⟩ := oldestKey_isSome p rest
          rw [hk] at heq
          cases heq
    · push_neg at hcap
      rw [if_neg (not_le.mpr hcap)]
      have hins := length_alistInsert_le (makeKey n l)
        { data := d, venueName := n, createdAt := t, expiresAt := t + c.ttl } c.cache
      omega
  | clear => simp [applyOp, ResearchCache.clear]
  | cleanupExpired t =>
    simp only [applyOp, ResearchCache.cleanupExpired]
    exact le_trans (List.length_filter_le _ _) hle

/-- **C5**: after any sequence of cache operations the store holds at most
`max_size` entries, and a `set` performed at capacity first removes exactly
one entry — one holding the minimal `created_at` timestamp — before
inserting the new binding. -/
theorem cache_capacity_invariant {α : Type} :
    (∀ (ttl maxSize : ℕ), 0 < maxSize → ∀ ops : List (CacheOp α),
        (applyOps ops (ResearchCache.init α ttl maxSize)).cache.length ≤ maxSize) ∧
    (∀ (c : ResearchCache α), CacheWF c → 0 < c.maxSize →
        c.cache.length = c.maxSize → ∀ n l d t, ∃ k v,
          oldestKey c.cache = some k ∧
          alistFind k c.cache = some v ∧
          (∀ p ∈ c.cache, v.createdAt ≤ p.2.createdAt) ∧
          (c.set n l d t).cache = alistInsert (makeKey n l)
            { data := d, venueName := n, createdAt := t, expiresAt := t + c.ttl }
            (alistErase k c.cache) ∧
          (alistErase k c.cache).length + 1 = c.cache.length) := by
  constructor
  · intro ttl maxSize hpos ops
    suffices h : ∀ (c : ResearchCache α), c.maxSize = maxSize →
        c.cache.length ≤ maxSize → (applyOps ops c).cache.length ≤ maxSize by
      exact h _ rfl (by simp [ResearchCache.init])
    induction ops with
    | nil => intro c _ hle; exact hle
    | cons op rest ih =>
      intro c hms hle
      have h1 := applyOp_length_le op c (hms ▸ hpos) (hms ▸ hle)
      have h2 := applyOp_maxSize op c
      exact ih (applyOp op c) (h2.trans hms) (hms ▸ h1)
  · intro c hwf hpos hlen n l d t
    have hne : c.cache ≠ [] := by
      intro h0
      rw [h0] at hlen
      simp at hlen
      omega
    obtain ⟨p, rest, hc⟩ := List.exists_cons_of_ne_nil hne
    obtain ⟨k, hk⟩ := oldestKey_isSome p rest
    rw [← hc] at hk
    obtain ⟨v, hfind, hmin⟩ := oldestKey_spec hwf hk
    refine ⟨k, v, hk, hfind, hmin, ?_, ?_⟩
    · show (c.set n l d t).cache = _
      simp only [ResearchCache.set, if_pos (le_of_eq hlen.symm), hk]
    · exact length_alistErase_of_mem
        (List.mem_map.mpr ⟨(k, v), alistFind_mem hfind, rfl⟩)

/-- Witness for C5: a three-operation history on a capacity-2 cache, and an
at-capacity `set` on the resulting store. -/
theorem cache_capacity_invariant_witness :
    ((applyOps [CacheOp.set "A" "L" 10 0, CacheOp.set "B" "L" 20 1,
        CacheOp.set "C" "L" 30 2] (ResearchCache.init ℕ 60 2)).cache.length ≤ 2) ∧
    (∃ k v, oldestKey (((ResearchCache.init ℕ 60 2).set "A" "L" 10 0).set "B" "L" 20 1).cache
          = some k ∧
        alistFind k (((ResearchCache.init ℕ 60 2).set "A" "L" 10 0).set "B" "L" 20 1).cache
          = some v ∧
        (∀ p ∈ (((ResearchCache.init ℕ 60 2).set "A" "L" 10 0).set "B" "L" 20 1).cache,
          v.createdAt ≤ p.2.createdAt) ∧
        ((((ResearchCache.init ℕ 60 2).set "A" "L" 10 0).set "B" "L" 20 1).set "C" "L" 30 2).cache
          = alistInsert (makeKey "C" "L")
              { data := 30, venueName := "C", createdAt := 2,
                expiresAt := 2 + (((ResearchCache.init ℕ 60 2).set "A" "L" 10 0).set
                  "B" "L" 20 1).ttl }
              (alistErase k (((ResearchCache.init ℕ 60 2).set "A" "L" 10 0).set
                "B" "L" 20 1).cache) ∧
        (alistErase k (((ResearchCache.init ℕ 60 2).set "A" "L" 10 0).set
            "B" "L" 20 1).cache).length + 1
          = (((ResearchCache.init ℕ 60 2).set "A" "L" 10 0).set "B" "L" 20 1).cache.length) := by
  constructor
  · exact cache_capacity_invariant.1 60 2 (by decide) _
  · exact cache_capacity_invariant.2 _ (by unfold CacheWF; decide) (by decide) (by decide)
      "C" "L" 30 2

/-! ## C6 — when capacity eviction can strike -/

/-- **C6 counterexample**: with a capacity-2 cache holding entries for `A`
(older) and `B`, a `set` whose normalized key is already present (`B`) still
evicts the different entry `A`; the claim that such a `set` never evicts a
different entry is false. -/
theorem cache_overwrite_evicts_counterexample :
    (alistFind (makeKey "A" "L")
        (((ResearchCache.init ℕ 60 2).set "A" "L" 10 0).set "B" "L" 20 1).cache).isSome ∧
    (alistFind (makeKey "B" "L")
        (((ResearchCache.init ℕ 60 2).set "A" "L" 10 0).set "B" "L" 20 1).cache).isSome ∧
    alistFind (makeKey "A" "L")
        ((((ResearchCache.init ℕ 60 2).set "A" "L" 10 0).set "B" "L" 20 1).set
          "B" "L" 30 2).cache = none := by
  decide

/-- **C6 amended**: an entry is capacity-evicted exactly by a `set` issued
while the store holds at least `max_size` entries (and the victim is an entry
with minimal `created_at`, even when the written key is already present); a
`get` never removes an entry under a key other than the one it looks up, and
an under-capacity `set` removes no other entry. -/
theorem cache_eviction_only_at_capacity {α : Type} :
    (∀ (c : ResearchCache α) (n l : String) (t : ℕ) (k : String), k ≠ makeKey n l →
        alistFind k ((c.get n l t).2).cache = alistFind k c.cache) ∧
    (∀ (c : ResearchCache α) (n l : String) (d : α) (t : ℕ) (k : String),
        c.cache.length < c.maxSize → k ≠ makeKey n l →
        alistFind k ((c.set n l d t)).cache = alistFind k c.cache) ∧
    (∀ (c : ResearchCache α), CacheWF c → 0 < c.cache.length →
        c.maxSize ≤ c.cache.length →
        ∀ n l d t, ∃ k v, oldestKey c.cache = some k ∧
          alistFind k c.cache = some v ∧
          (∀ p ∈ c.cache, v.createdAt ≤ p.2.createdAt) ∧
          (c.set n l d t).cache = alistInsert (makeKey n l)
            { data := d, venueName := n, createdAt := t, expiresAt := t + c.ttl }
            (alistErase k c.cache)) := by
  refine ⟨?_, ?_, ?_⟩
  · intro c n l t k hk
    simp only [ResearchCache.get]
    split
    · rfl
    · split
      · exact alistFind_erase_ne hk c.cache
      · rfl
  · intro c n l d t k hunder hk
    simp only [ResearchCache.set, if_neg (not_le.mpr hunder)]
    exact alistFind_insert_ne (fun h => hk h.symm) _ _
  · intro c hwf hlen hcap n l d t
    have hne : c.cache ≠ [] := by
      intro h0
      rw [h0] at hlen
      simp at hlen
    obtain ⟨p, rest, hc⟩ := List.exists_cons_of_ne_nil hne
    obtain ⟨k, hk⟩ := oldestKey_isSome p rest
    rw [← hc] at hk
    obtain ⟨v, hfind, hmin⟩ := oldestKey_spec hwf hk
    refine ⟨k, v, hk, hfind, hmin, ?_⟩
    show (c.set n l d t).cache = _
    simp only [ResearchCache.set, if_pos hcap, hk]

/-- Witness for C6's amended theorem on concrete caches. -/
theorem cache_eviction_only_at_capacity_witness :
    alistFind (makeKey "A" "L")
        (((ResearchCache.init ℕ 60 2).set "A" "L" 10 0).get "B" "L" 1).2.cache
      = alistFind (makeKey "A" "L") ((ResearchCache.init ℕ 60 2).set "A" "L" 10 0).cache ∧
    alistFind (makeKey "A" "L")
        (((ResearchCache.init ℕ 60 2).set "A" "L" 10 0).set "B" "L" 20 1).cache
      = alistFind (makeKey "A" "L") ((ResearchCache.init ℕ 60 2).set "A" "L" 10 0).cache ∧
    (∃ k v, oldestKey (((ResearchCache.init ℕ 60 2).set "A" "L" 10 0).set "B" "L" 20 1).cache
        = some k ∧
      alistFind k (((ResearchCache.init ℕ 60 2).set "A" "L" 10 0).set "B" "L" 20 1).cache
        = some v ∧
      (∀ p ∈ (((ResearchCache.init ℕ 60 2).set "A" "L" 10 0).set "B" "L" 20 1).cache,
        v.createdAt ≤ p.2.createdAt) ∧
      ((((ResearchCache.init ℕ 60 2).set "A" "L" 10 0).set "B" "L" 20 1).set "B" "L" 30 2).cache
        = alistInsert (makeKey "B" "L")
            { data := 30, venueName := "B", createdAt := 2,
              expiresAt := 2 + (((ResearchCache.init ℕ 60 2).set "A" "L" 10 0).set
                "B" "L" 20 1).ttl }
            (alistErase k (((ResearchCache.init ℕ 60 2).set "A" "L" 10 0).set
              "B" "L" 20 1).cache)) := by
  refine ⟨?_, ?_, ?_⟩
  · exact cache_eviction_only_at_capacity.1 _ "B" "L" 1 (makeKey "A" "L") (by decide)
  · exact cache_eviction_only_at_capacity.2.1 _ "B" "L" 20 1 (makeKey "A" "L")
      (by decide) (by decide)
  · exact cache_eviction_only_at_capacity.2.2 _ (by unfold CacheWF; decide) (by decide)
      (by decide) "B" "L" 30 2

/-! ## C7 — the warm-cache scenario and its reported hit rate -/

/-- **C7 counterexample**: in the 6-candidate scenario the first run indeed
performs 6 misses, but reports hit rate `"0.0%"` (not `"0%"`), and the second
run performs 6 hits yet reports `"50.0%"`, not `"100%"`: the counters are
cumulative across runs. -/
theorem warm_cache_scenario_counterexample :
    scenarioRun1.2.2.hits = 0 ∧
    scenarioRun1.2.2.misses = 6 ∧
    scenarioRun1.2.1.cacheHitRate ≠ "0%" ∧
    scenarioRun2.2.2.hits = 6 ∧
    scenarioRun2.2.2.misses = 6 ∧
    scenarioRun2.2.1.cacheHitRate ≠ "100%" := by
  refine ⟨by decide, by decide, by decide, by decide, by decide, by decide⟩

/-- **C7 amended**: the first run performs 6 misses, produces 6 enriched
outputs and reports hit rate `"0.0%"`; the immediate second run performs 6
hits, returns the same 6 cached outputs, and reports the cumulative hit rate
`"50.0%"` (6 hits out of 12 lookups). -/
theorem warm_cache_scenario :
    scenarioRun1.2.2.hits = 0 ∧
    scenarioRun1.2.2.misses = 6 ∧
    scenarioRun1.1.length = 6 ∧
    scenarioRun1.2.1.cacheHitRate = "0.0%" ∧
    scenarioRun2.2.2.hits = 6 ∧
    scenarioRun2.2.2.misses = 6 ∧
    scenarioRun2.1 = scenarioRun1.1 ∧
    scenarioRun2.2.1.cacheHitRate = "50.0%" := by
  refine ⟨by decide, by decide, by decide, by decide, by decide, by decide, ?_, by decide⟩
  decide

/-! ## C9 — the adopted optimizer permutation is a bijection on the stops -/

theorem range_filterMap_take (l : List LocEntry) (M : ℕ) :
    ∀ m, m ≤ l.length → m ≤ M →
      (List.range m).filterMap (fun i => if i < M then l.get? i else none) = l.take m := by
  intro m
  induction m with
  | zero => simp
  | succ m ih =>
    intro h1 h2
    rw [List.range_succ, List.filterMap_append, ih (by omega) (by omega), List.take_succ]
    have hm : m < M := by omega
    simp only [List.get?_eq_getElem?, List.append_cancel_left_eq]
    cases hl : l[m]? <;> simp [hm, hl]

/-- **C9**: when the optimizer's `waypoint_order` is a permutation of the
indices of all stops but the last, the reordered stop list the pipeline
adopts is a permutation of the input stops — none added, dropped or
duplicated — and the original last stop stays the final destination. -/
theorem optimized_route_is_permutation (locations : List LocEntry) (order : List ℕ)
    (hne : locations ≠ []) (hperm : order.Perm (List.range (locations.length - 1))) :
    (reorderByWaypointOrder locations order).Perm locations ∧
    (reorderByWaypointOrder locations order).getLast? = locations.getLast? := by
  have hlast : locations.getLast? = some (locations.getLast hne) :=
    List.getLast?_eq_getLast locations hne
  have hfm := hperm.filterMap
    (fun idx => if idx < locations.length - 1 then locations.get? idx else none)
  have htake := range_filterMap_take locations (locations.length - 1)
    (locations.length - 1) (by omega) le_rfl
  rw [htake] at hfm
  have hdl : locations.take (locations.length - 1) = locations.dropLast :=
    (List.dropLast_eq_take locations).symm
  rw [hdl] at hfm
  constructor
  · show ((order.filterMap fun idx =>
        if idx < locations.length - 1 then locations.get? idx else none) ++
          locations.getLast?.toList).Perm locations
    rw [hlast]
    calc ((order.filterMap fun idx =>
            if idx < locations.length - 1 then locations.get? idx else none) ++
              [locations.getLast hne]).Perm
          (locations.dropLast ++ [locations.getLast hne]) :=
            hfm.append_right _
      _ = locations := List.dropLast_append_getLast hne
  · show ((order.filterMap fun idx =>
        if idx < locations.length - 1 then locations.get? idx else none) ++
          locations.getLast?.toList).getLast? = locations.getLast?
    rw [hlast]
    exact List.getLast?_concat _

/-- Witness for C9: a three-stop route with the optimizer swapping the two
waypoints. -/
theorem optimized_route_is_permutation_witness :
    (reorderByWaypointOrder
        [⟨"A", "1 A St"⟩, ⟨"B", "2 B St"⟩, ⟨"C", "3 C St"⟩] [1, 0]).Perm
      [⟨"A", "1 A St"⟩, ⟨"B", "2 B St"⟩, ⟨"C", "3 C St"⟩] ∧
    (reorderByWaypointOrder
        [⟨"A", "1 A St"⟩, ⟨"B", "2 B St"⟩, ⟨"C", "3 C St"⟩] [1, 0]).getLast?
      = ([⟨"A", "1 A St"⟩, ⟨"B", "2 B St"⟩, ⟨"C", "3 C St"⟩] : List LocEntry).getLast? :=
  optimized_route_is_permutation
    [⟨"A", "1 A St"⟩, ⟨"B", "2 B St"⟩, ⟨"C", "3 C St"⟩] [1, 0]
    (by decide) (by decide)

/-! ## C10 — address validation and silent exclusion of invalid stops -/

theorem filterMap_valid_eq (locs : List LocEntry) :
    (locs.filterMap fun loc =>
        if isValidAddress loc.address then
          some ({ name := loc.name, address := cleanAddress loc.address } : RouteStop)
        else none)
      = ((locs.filter fun l => isValidAddress l.address).map
          fun l => { name := l.name, address := cleanAddress l.address }) := by
  induction locs with
  | nil => rfl
  | cons l rest ih => by_cases h : isValidAddress l.address <;> simp [h, ih]

/-- **C10**: the address validator rejects every address whose stripped length
is below 5 regardless of content, accepts every address of stripped length at
least 5 that contains a decimal digit, and route preparation keeps exactly the
stops whose address validates (failing only when none does): invalid stops
are silently excluded rather than failing the route. -/
theorem address_validation_and_exclusion :
    (∀ a : String, (pyStrip a).length < 5 → isValidAddress a = false) ∧
    (∀ a : String, 5 ≤ (pyStrip a).length → a.data.any Char.isDigit = true →
        isValidAddress a = true) ∧
    (∀ (locs : List LocEntry) (ua : Option String),
        (prepareCompleteRouteData locs ua = none ↔
          (locs.filter fun l => isValidAddress l.address) = []) ∧
        (∀ rd, prepareCompleteRouteData locs ua = some rd →
          (rd.useUserOrigin = true →
            rd.allStops = (locs.filter fun l => isValidAddress l.address).map
              fun l => { name := l.name, address := cleanAddress l.address }) ∧
          (rd.useUserOrigin = false →
            ((locs.filter fun l => isValidAddress l.address).map
              fun l => ({ name := l.name, address := cleanAddress l.address } : RouteStop))
              = { name := rd.originName, address := rd.origin } :: rd.allStops))) := by
  refine ⟨?_, ?_, ?_⟩
  · intro a h
    simp [isValidAddress, h]
  · intro a h5 hdig
    have hne : a ≠ "" := by
      intro he
      subst he
      simp [pyStrip, trimChars] at h5
    rw [isValidAddress, if_neg (by push_neg; exact ⟨hne, h5⟩)]
    simp [hdig]
  · intro locs ua
    have hkey := filterMap_valid_eq locs
    constructor
    · rw [prepareCompleteRouteData, hkey]
      cases hv : (locs.filter fun l => isValidAddress l.address) with
      | nil => simp
      | cons v rest =>
        simp only [List.map_cons]
        constructor
        · intro h
          by_cases hu : ua.getD "" ≠ "" ∧ isValidAddress (ua.getD "") = true <;>
            simp [hu] at h
        · intro h
          cases h
    · intro rd hrd
      rw [prepareCompleteRouteData, hkey] at hrd
      cases hv : (locs.filter fun l => isValidAddress l.address) with
      | nil =>
        rw [hv] at hrd
        simp at hrd
      | cons v rest =>
        rw [hv] at hrd
        simp only [List.map_cons] at hrd
        by_cases hu : ua.getD "" ≠ "" ∧ isValidAddress (ua.getD "") = true
        · rw [if_pos hu] at hrd
          simp only [Option.some.injEq] at hrd
          subst hrd
          constructor
          · intro _
            simp
          · intro h
            simp at h
        · rw [if_neg hu] at hrd
          simp only [Option.some.injEq] at hrd
          subst hrd
          constructor
          · intro h
            simp at h
          · intro _
            simp

/-- Witness for C10: a too-short address, a digit-bearing street address, and
a mixed stop list whose invalid stop is dropped. -/
theorem address_validation_and_exclusion_witness :
    isValidAddress "ab1" = false ∧
    isValidAddress "12 Maple" = true ∧
    (prepareCompleteRouteData
        ([⟨"Good", "12 Maple St, Boston"⟩, ⟨"Bad", "?"⟩] : List LocEntry)
        (some "77 Main St, Boston")
      = none ↔
        (([⟨"Good", "12 Maple St, Boston"⟩, ⟨"Bad", "?"⟩] : List LocEntry).filter
          fun l => isValidAddress l.address) = []) := by
  refine ⟨?_, ?_, ?_⟩
  · exact address_validation_and_exclusion.1 "ab1" (by decide)
  · exact address_validation_and_exclusion.2.1 "12 Maple" (by decide) (by decide)
  · exact (address_validation_and_exclusion.2.2
      ([⟨"Good", "12 Maple St, Boston"⟩, ⟨"Bad", "?"⟩] : List LocEntry)
      (some "77 Main St, Boston")).1

/-! ## C8 — per-mode waypoint ceilings -/

/-- **C8 counterexample**: the coordinator's directions-based URL builder
(`_build_google_maps_url_from_directions`) applies no waypoint ceiling: for a
Google-optimized 12-stop walking route it emits all 11 intermediate waypoints
(10 `|` separators) although the walking ceiling is 9; the claim that every
constructed provider URL respects the ceiling is false. -/
theorem waypoint_ceiling_counterexample :
    buildGoogleMapsUrlFromDirections "Origin"
        [⟨"s1", "a1"⟩, ⟨"s2", "a2"⟩, ⟨"s3", "a3"⟩, ⟨"s4", "a4"⟩, ⟨"s5", "a5"⟩,
         ⟨"s6", "a6"⟩, ⟨"s7", "a7"⟩, ⟨"s8", "a8"⟩, ⟨"s9", "a9"⟩, ⟨"s10", "a10"⟩,
         ⟨"s11", "a11"⟩, ⟨"s12", "a12"⟩] "walking"
      = some (renderDirUrl "Origin" "a12"
          ["a1", "a2", "a3", "a4", "a5", "a6", "a7", "a8", "a9", "a10", "a11"]
          "walking") ∧
    (["a1", "a2", "a3", "a4", "a5", "a6", "a7", "a8", "a9", "a10", "a11"] : List String).length
      = 11 ∧
    maxWaypointsFor "walking" = 9 ∧
    ((buildGoogleMapsUrlFromDirections "Origin"
        [⟨"s1", "a1"⟩, ⟨"s2", "a2"⟩, ⟨"s3", "a3"⟩, ⟨"s4", "a4"⟩, ⟨"s5", "a5"⟩,
         ⟨"s6", "a6"⟩, ⟨"s7", "a7"⟩, ⟨"s8", "a8"⟩, ⟨"s9", "a9"⟩, ⟨"s10", "a10"⟩,
         ⟨"s11", "a11"⟩, ⟨"s12", "a12"⟩] "walking").getD "").data.count '|' = 10 := by
  refine ⟨by decide, by decide, by decide, by decide⟩

/-- **C8 amended**: the per-mode ceiling (9 for walking and transit, 23
otherwise) holds for every URL built by the routing agent's
`_build_complete_google_maps_url` — all but the last stop become waypoints,
truncated deterministically to the first `N` — while the coordinator's
directions-based builder includes every waypoint untruncated. -/
theorem waypoint_ceiling_truncation :
    maxWaypointsFor "walking" = 9 ∧ maxWaypointsFor "transit" = 9 ∧
    maxWaypointsFor "driving" = 23 ∧
    (∀ (origin : String) (stops : List RouteStop) (mode : String), 2 ≤ stops.length →
      buildCompleteGoogleMapsUrl origin stops mode
        = some (renderDirUrl origin ((stops.map (·.address)).getLast?.getD "")
            ((stops.map (·.address)).dropLast.take (maxWaypointsFor mode)) mode) ∧
      ((stops.map (·.address)).dropLast.take (maxWaypointsFor mode)).length
        ≤ maxWaypointsFor mode) := by
  refine ⟨rfl, rfl, rfl, ?_⟩
  intro origin stops mode h2
  cases hm : stops.map (·.address) with
  | nil =>
    have : stops.length = 0 := by simpa using congrArg List.length hm
    omega
  | cons a rest =>
    cases rest with
    | nil =>
      have : stops.length = 1 := by simpa using congrArg List.length hm
      omega
    | cons b t =>
      constructor
      · simp only [buildCompleteGoogleMapsUrl, hm]
        by_cases ht : maxWaypointsFor mode < ((a :: b :: t).dropLast).length
        · rw [if_pos ht]
        · rw [if_neg ht, List.take_of_length_le (le_of_not_lt ht)]
      · rw [List.length_take]
        exact min_le_left _ _

/-- Witness for C8's amended theorem: a 12-stop walking route is truncated to
the first 9 waypoints plus the destination, while a 4-stop walking route keeps
all 3 waypoints plus the destination. -/
theorem waypoint_ceiling_truncation_witness :
    buildCompleteGoogleMapsUrl "Origin"
        [⟨"s1", "a1"⟩, ⟨"s2", "a2"⟩, ⟨"s3", "a3"⟩, ⟨"s4", "a4"⟩, ⟨"s5", "a5"⟩,
         ⟨"s6", "a6"⟩, ⟨"s7", "a7"⟩, ⟨"s8", "a8"⟩, ⟨"s9", "a9"⟩, ⟨"s10", "a10"⟩,
         ⟨"s11", "a11"⟩, ⟨"s12", "a12"⟩] "walking"
      = some (renderDirUrl "Origin" "a12"
          ["a1", "a2", "a3", "a4", "a5", "a6", "a7", "a8", "a9"] "walking") ∧
    buildCompleteGoogleMapsUrl "Origin"
        [⟨"s1", "a1"⟩, ⟨"s2", "a2"⟩, ⟨"s3", "a3"⟩, ⟨"s4", "a4"⟩] "walking"
      = some (renderDirUrl "Origin" "a4" ["a1", "a2", "a3"] "walking") := by
  constructor
  · have h := (waypoint_ceiling_truncation.2.2.2 "Origin"
      [⟨"s1", "a1"⟩, ⟨"s2", "a2"⟩, ⟨"s3", "a3"⟩, ⟨"s4", "a4"⟩, ⟨"s5", "a5"⟩,
       ⟨"s6", "a6"⟩, ⟨"s7", "a7"⟩, ⟨"s8", "a8"⟩, ⟨"s9", "a9"⟩, ⟨"s10", "a10"⟩,
       ⟨"s11", "a11"⟩, ⟨"s12", "a12"⟩] "walking" (by decide)).1
    rw [h]
    rfl
  · have h := (waypoint_ceiling_truncation.2.2.2 "Origin"
      [⟨"s1", "a1"⟩, ⟨"s2", "a2"⟩, ⟨"s3", "a3"⟩, ⟨"s4", "a4"⟩] "walking" (by decide)).1
    rw [h]
    rfl

/-! ## C1 — the clarification branch halts the pipeline -/

theorem parseLocationNode_spec (env : WorkflowEnv) (s : AdventureState) :
    (parseLocationNode env s).error = s.error ∧
    (parseLocationNode env s).parsedPreferences = s.parsedPreferences ∧
    (parseLocationNode env s).finalAdventures = s.finalAdventures ∧
    (parseLocationNode env s).trace = s.trace ++ ["parse_location"] := by
  rcases h : env.locationResult with e | ⟨b, loc⟩
  · simp [parseLocationNode, h]
  · cases b <;> simp [parseLocationNode, h]

theorem shouldContinue_clarification {s : AdventureState} (c : ClarificationError)
    (h : s.error = some (.clarification c)) :
    shouldContinueAfterIntent s = "stop" := by
  simp [shouldContinueAfterIntent, h]

theorem shouldContinue_noPrefs {s : AdventureState} (he : s.error = none)
    (hp : s.parsedPreferences = none ∨ s.parsedPreferences = some []) :
    shouldContinueAfterIntent s = "stop" := by
  rcases hp with hp | hp <;> simp [shouldContinueAfterIntent, he, hp]

theorem runWorkflow_stop (env : WorkflowEnv) (s0 s3 : AdventureState)
    (h3 : parseIntentNode env (getPersonalizationNode (parseLocationNode env s0)) = s3)
    (hstop : shouldContinueAfterIntent s3 = "stop") :
    runWorkflow env s0 = s3 := by
  simp only [runWorkflow, h3, hstop]
  simp

/-- **C1 (amended)**: whenever the preference parser reports a clarification
signal (a failed response or an explicit `needs_clarification`), or parsing
yields no usable preferences (an empty preference dict, or the parser call
raising), the workflow stops at the conditional branch — venue scouting,
enrichment, summarization, routing and adventure composition never execute —
and `generate_adventures` returns an empty composition list.  Only in the
signal case does it also return the clarification payload, verbatim as the
parser produced it: in the no-preferences and parser-exception cases the
conditional-edge router's snapshot write of the default payload is discarded
by the framework, so the final state carries no error and the result carries
no clarification payload. -/
theorem clarification_halts_pipeline :
    (∀ (env : WorkflowEnv) (ui : String) (ua : Option String) (r : IntentResponse)
        (m : String) (sugg : List String),
      env.intentResult = .ok r →
      (r.success = false ∨ r.data.needsClarification = true) →
      r.data.clarificationMessage = some m →
      r.data.suggestions = some sugg →
      (generateAdventures env ui ua).1 = [] ∧
      (generateAdventures env ui ua).2.2.trace
        = ["parse_location", "get_personalization", "parse_intent"] ∧
      (generateAdventures env ui ua).2.1 = .errorMeta (.clarification
        { message := m, suggestions := sugg, outOfScope := r.data.outOfScope,
          scopeIssue := r.data.scopeIssue, detectedCity := r.data.detectedCity,
          unrelatedQuery := r.data.unrelatedQuery, queryType := r.data.queryType })) ∧
    (∀ (env : WorkflowEnv) (ui : String) (ua : Option String) (r : IntentResponse),
      env.intentResult = .ok r →
      r.success = true → r.data.needsClarification = false →
      r.data.parsedPreferences = [] →
      (generateAdventures env ui ua).1 = [] ∧
      (generateAdventures env ui ua).2.2.trace
        = ["parse_location", "get_personalization", "parse_intent"] ∧
      (generateAdventures env ui ua).2.2.error = none ∧
      ((generateAdventures env ui ua).2.1).isClarification = false) ∧
    (∀ (env : WorkflowEnv) (ui : String) (ua : Option String),
      env.intentResult = .error () →
      (generateAdventures env ui ua).1 = [] ∧
      (generateAdventures env ui ua).2.2.trace
        = ["parse_location", "get_personalization", "parse_intent"] ∧
      (generateAdventures env ui ua).2.2.error = none ∧
      ((generateAdventures env ui ua).2.1).isClarification = false) := by
  refine ⟨?_, ?_, ?_⟩
  · intro env ui ua r m sugg hres hclar hmsg hsugg
    obtain ⟨he1, hp1, hf1, ht1⟩ := parseLocationNode_spec env (initialState ui ua)
    have hcond : ¬ r.success = true ∨ r.data.needsClarification = true := by
      rcases hclar with h | h
      · exact .inl (by simp [h])
      · exact .inr h
    have hs3 : parseIntentNode env (getPersonalizationNode (parseLocationNode env
        (initialState ui ua)))
        = { getPersonalizationNode (parseLocationNode env (initialState ui ua)) with
            trace := (getPersonalizationNode (parseLocationNode env
              (initialState ui ua))).trace ++ ["parse_intent"],
            error := some (.clarification
              { message := m, suggestions := sugg, outOfScope := r.data.outOfScope,
                scopeIssue := r.data.scopeIssue, detectedCity := r.data.detectedCity,
                unrelatedQuery := r.data.unrelatedQuery,
                queryType := r.data.queryType }) } := by
      simp only [parseIntentNode, hres]
      rw [if_pos hcond]
      simp [hmsg, hsugg]
    have herr : (parseIntentNode env (getPersonalizationNode (parseLocationNode env
        (initialState ui ua)))).error = some (.clarification
          { message := m, suggestions := sugg, outOfScope := r.data.outOfScope,
            scopeIssue := r.data.scopeIssue, detectedCity := r.data.detectedCity,
            unrelatedQuery := r.data.unrelatedQuery, queryType := r.data.queryType }) := by
      rw [hs3]
    have hrun := runWorkflow_stop env (initialState ui ua) _ rfl
      (shouldContinue_clarification _ herr)
    have htrace : (parseIntentNode env (getPersonalizationNode (parseLocationNode env
        (initialState ui ua)))).trace
        = ["parse_location", "get_personalization", "parse_intent"] := by
      rw [hs3]
      show (getPersonalizationNode (parseLocationNode env (initialState ui ua))).trace
        ++ ["parse_intent"] = _
      rw [getPersonalizationNode]
      show (parseLocationNode env (initialState ui ua)).trace
        ++ ["get_personalization"] ++ ["parse_intent"] = _
      rw [ht1]
      rfl
    refine ⟨?_, ?_, ?_⟩ <;> (rw [generateAdventures, hrun, herr]; try simp [htrace])
  · intro env ui ua r hres hsucc hncl hprefs
    obtain ⟨he1, hp1, hf1, ht1⟩ := parseLocationNode_spec env (initialState ui ua)
    have hs3 : parseIntentNode env (getPersonalizationNode (parseLocationNode env
        (initialState ui ua)))
        = { getPersonalizationNode (parseLocationNode env (initialState ui ua)) with
            trace := (getPersonalizationNode (parseLocationNode env
              (initialState ui ua))).trace ++ ["parse_intent"],
            parsedPreferences := some r.data.parsedPreferences } := by
      simp only [parseIntentNode, hres]
      rw [if_neg (by simp [hsucc, hncl])]
    have herr : (parseIntentNode env (getPersonalizationNode (parseLocationNode env
        (initialState ui ua)))).error = none := by
      rw [hs3]
      show (getPersonalizationNode (parseLocationNode env (initialState ui ua))).error = none
      show (parseLocationNode env (initialState ui ua)).error = none
      rw [he1]
      rfl
    have hpr : (parseIntentNode env (getPersonalizationNode (parseLocationNode env
        (initialState ui ua)))).parsedPreferences = some [] := by
      rw [hs3, hprefs]
    have hstop := shouldContinue_noPrefs herr (.inr hpr)
    have hrun := runWorkflow_stop env (initialState ui ua) _ rfl hstop
    have htrace : (parseIntentNode env (getPersonalizationNode (parseLocationNode env
        (initialState ui ua)))).trace
        = ["parse_location", "get_personalization", "parse_intent"] := by
      rw [hs3]
      show (getPersonalizationNode (parseLocationNode env (initialState ui ua))).trace
        ++ ["parse_intent"] = _
      rw [getPersonalizationNode]
      show (parseLocationNode env (initialState ui ua)).trace
        ++ ["get_personalization"] ++ ["parse_intent"] = _
      rw [ht1]
      rfl
    have hfa : (parseIntentNode env (getPersonalizationNode (parseLocationNode env
        (initialState ui ua)))).finalAdventures = [] := by
      rw [hs3]
      show (getPersonalizationNode (parseLocationNode env
        (initialState ui ua))).finalAdventures = []
      show (parseLocationNode env (initialState ui ua)).finalAdventures = []
      rw [hf1]
      rfl
    refine ⟨?_, ?_, ?_, ?_⟩ <;>
      (rw [generateAdventures, hrun, herr]
       simp [htrace, hfa, herr, GenMeta.isClarification])
  · intro env ui ua hres
    obtain ⟨he1, hp1, hf1, ht1⟩ := parseLocationNode_spec env (initialState ui ua)
    have hs3 : parseIntentNode env (getPersonalizationNode (parseLocationNode env
        (initialState ui ua)))
        = { getPersonalizationNode (parseLocationNode env (initialState ui ua)) with
            trace := (getPersonalizationNode (parseLocationNode env
              (initialState ui ua))).trace ++ ["parse_intent"] } := by
      simp only [parseIntentNode, hres]
    have herr : (parseIntentNode env (getPersonalizationNode (parseLocationNode env
        (initialState ui ua)))).error = none := by
      rw [hs3]
      show (getPersonalizationNode (parseLocationNode env (initialState ui ua))).error = none
      show (parseLocationNode env (initialState ui ua)).error = none
      rw [he1]
      rfl
    have hpr : (parseIntentNode env (getPersonalizationNode (parseLocationNode env
        (initialState ui ua)))).parsedPreferences = none := by
      rw [hs3]
      show (getPersonalizationNode (parseLocationNode env
        (initialState ui ua))).parsedPreferences = none
      show (parseLocationNode env (initialState ui ua)).parsedPreferences = none
      rw [hp1]
      rfl
    have hstop := shouldContinue_noPrefs herr (.inl hpr)
    have hrun := runWorkflow_stop env (initialState ui ua) _ rfl hstop
    have htrace : (parseIntentNode env (getPersonalizationNode (parseLocationNode env
        (initialState ui ua)))).trace
        = ["parse_location", "get_personalization", "parse_intent"] := by
      rw [hs3]
      show (getPersonalizationNode (parseLocationNode env (initialState ui ua))).trace
        ++ ["parse_intent"] = _
      rw [getPersonalizationNode]
      show (parseLocationNode env (initialState ui ua)).trace
        ++ ["get_personalization"] ++ ["parse_intent"] = _
      rw [ht1]
      rfl
    have hfa : (parseIntentNode env (getPersonalizationNode (parseLocationNode env
        (initialState ui ua)))).finalAdventures = [] := by
      rw [hs3]
      show (getPersonalizationNode (parseLocationNode env
        (initialState ui ua))).finalAdventures = []
      show (parseLocationNode env (initialState ui ua)).finalAdventures = []
      rw [hf1]
      rfl
    refine ⟨?_, ?_, ?_, ?_⟩ <;>
      (rw [generateAdventures, hrun, herr]
       simp [htrace, hfa, herr, GenMeta.isClarification])

/-- Witness for C1: an out-of-scope request whose parser response carries an
explicit clarification payload. -/
theorem clarification_halts_pipeline_witness :
    (generateAdventures
        { locationResult := .ok (true, "Paris")
          intentResult := .ok
            { success := false
              data := { needsClarification := true
                        clarificationMessage := some "MiniQuest operates in Boston and NYC only."
                        suggestions := some ["Museums in Boston", "Parks in NYC"]
                        outOfScope := true } }
          scoutResult := .ok (true, [{ name := "Should not run" }])
          researchResult := .ok (true, [])
          summaryResult := .ok (true, [])
          creationResult := .ok (true, [{ title := "Should not run" }]) }
        "coffee in Paris" none).1 = [] ∧
    (generateAdventures
        { locationResult := .ok (true, "Paris")
          intentResult := .ok
            { success := false
              data := { needsClarification := true
                        clarificationMessage := some "MiniQuest operates in Boston and NYC only."
                        suggestions := some ["Museums in Boston", "Parks in NYC"]
                        outOfScope := true } }
          scoutResult := .ok (true, [{ name := "Should not run" }])
          researchResult := .ok (true, [])
          summaryResult := .ok (true, [])
          creationResult := .ok (true, [{ title := "Should not run" }]) }
        "coffee in Paris" none).2.2.trace
      = ["parse_location", "get_personalization", "parse_intent"] := by
  have h := clarification_halts_pipeline.1
    { locationResult := .ok (true, "Paris")
      intentResult := .ok
        { success := false
          data := { needsClarification := true
                    clarificationMessage := some "MiniQuest operates in Boston and NYC only."
                    suggestions := some ["Museums in Boston", "Parks in NYC"]
                    outOfScope := true } }
      scoutResult := .ok (true, [{ name := "Should not run" }])
      researchResult := .ok (true, [])
      summaryResult := .ok (true, [])
      creationResult := .ok (true, [{ title := "Should not run" }]) }
    "coffee in Paris" none
    { success := false
      data := { needsClarification := true
                clarificationMessage := some "MiniQuest operates in Boston and NYC only."
                suggestions := some ["Museums in Boston", "Parks in NYC"]
                outOfScope := true } }
    "MiniQuest operates in Boston and NYC only." ["Museums in Boston", "Parks in NYC"]
    rfl (.inl rfl) rfl rfl
  exact ⟨h.1, h.2.1⟩

/-- Counterexample to C1's payload conjunct on the no-usable-preferences leg:
the parser succeeds without a clarification signal but yields an empty
preference dict, the workflow halts after `parse_intent` with an empty
composition list, yet the final state carries no error and the returned
metadata carries no clarification payload — the conditional-edge router's
snapshot write of the default clarification is discarded by the framework, so
the claimed payload is never returned. -/
theorem clarification_halts_pipeline_counterexample :
    (generateAdventures
        { locationResult := .ok (true, "Boston, MA")
          intentResult := .ok { success := true, data := { needsClarification := false } }
          scoutResult := .ok (true, [{ name := "Should not run" }])
          researchResult := .ok (true, [])
          summaryResult := .ok (true, [])
          creationResult := .ok (true, [{ title := "Should not run" }]) }
        "plan me something" none).1 = [] ∧
    (generateAdventures
        { locationResult := .ok (true, "Boston, MA")
          intentResult := .ok { success := true, data := { needsClarification := false } }
          scoutResult := .ok (true, [{ name := "Should not run" }])
          researchResult := .ok (true, [])
          summaryResult := .ok (true, [])
          creationResult := .ok (true, [{ title := "Should not run" }]) }
        "plan me something" none).2.2.trace
      = ["parse_location", "get_personalization", "parse_intent"] ∧
    (generateAdventures
        { locationResult := .ok (true, "Boston, MA")
          intentResult := .ok { success := true, data := { needsClarification := false } }
          scoutResult := .ok (true, [{ name := "Should not run" }])
          researchResult := .ok (true, [])
          summaryResult := .ok (true, [])
          creationResult := .ok (true, [{ title := "Should not run" }]) }
        "plan me something" none).2.2.error = none ∧
    ((generateAdventures
        { locationResult := .ok (true, "Boston, MA")
          intentResult := .ok { success := true, data := { needsClarification := false } }
          scoutResult := .ok (true, [{ name := "Should not run" }])
          researchResult := .ok (true, [])
          summaryResult := .ok (true, [])
          creationResult := .ok (true, [{ title := "Should not run" }]) }
        "plan me something" none).2.1).isClarification = false := by
  decide

/-! ## C2 — fan-out enrichment degrades failures per candidate -/

theorem alistFind_set_none {α : Type} (c : ResearchCache α) (n l : String) (d : α)
    (now : ℕ) (k : String) (hk : k ≠ makeKey n l)
    (habs : alistFind k c.cache = none) :
    alistFind k (c.set n l d now).cache = none := by
  simp only [ResearchCache.set]
  rw [alistFind_insert_ne (Ne.symm hk)]
  split
  · split
    · exact alistFind_erase_none habs
    · exact habs
  · exact habs

theorem researchVenueSafe_of_absent (useCache : Bool)
    (outcome : Except Unit VenueProfile) (c : ResearchCache VenueProfile)
    (venue : Venue) (location : String) (now : ℕ)
    (habs : alistFind (makeKey venue.name location) c.cache = none) :
    (researchVenueSafe useCache outcome c venue location now).1
      = (match outcome with
         | .ok r => r
         | .error _ => fallbackProfile venue location) ∧
    ∀ k, k ≠ makeKey venue.name location → alistFind k c.cache = none →
      alistFind k (researchVenueSafe useCache outcome c venue location now).2.cache
        = none := by
  cases useCache with
  | false =>
    cases outcome with
    | ok r =>
      refine ⟨rfl, fun k _ hk => ?_⟩
      simpa [researchVenueSafe] using hk
    | error e =>
      refine ⟨rfl, fun k _ hk => ?_⟩
      simpa [researchVenueSafe] using hk
  | true =>
    have hget : c.get venue.name location now
        = (none, { c with misses := c.misses + 1 }) := by
      simp [ResearchCache.get, habs]
    cases outcome with
    | ok r =>
      by_cases hst : r.researchStatus ≠ "failed" ∧ r.researchStatus ≠ "unknown"
      · have hrw : researchVenueSafe true (.ok r) c venue location now
            = (r, ({ c with misses := c.misses + 1 } :
                ResearchCache VenueProfile).set venue.name location r now) := by
          simp [researchVenueSafe, hget, hst]
        rw [hrw]
        exact ⟨rfl, fun k hkk hk => alistFind_set_none _ _ _ _ _ _ hkk hk⟩
      · have hrw : researchVenueSafe true (.ok r) c venue location now
            = (r, { c with misses := c.misses + 1 }) := by
          simp [researchVenueSafe, hget, hst]
        rw [hrw]
        exact ⟨rfl, fun k _ hk => hk⟩
    | error e =>
      have hrw : researchVenueSafe true (.error e) c venue location now
          = (fallbackProfile venue location, { c with misses := c.misses + 1 }) := by
        simp [researchVenueSafe, hget]
      rw [hrw]
      exact ⟨rfl, fun k _ hk => hk⟩

theorem researchAll_outputs (useCache : Bool) (outcomes : ℕ → Except Unit VenueProfile)
    (location : String) (now : ℕ) :
    ∀ (sel : List Venue) (i : ℕ) (c : ResearchCache VenueProfile),
      (∀ v ∈ sel, alistFind (makeKey v.name location) c.cache = none) →
      (sel.map fun v => makeKey v.name location).Nodup →
      (researchAll useCache outcomes location now sel i c).1
        = sel.mapIdx fun j v =>
            (match outcomes (i + j) with
             | .ok r => r
             | .error _ => fallbackProfile v location) := by
  intro sel
  induction sel with
  | nil => intro i c _ _; simp [researchAll]
  | cons v rest ih =>
    intro i c habs hnd
    simp only [List.map_cons, List.nodup_cons] at hnd
    obtain ⟨hstep, hpres⟩ := researchVenueSafe_of_absent useCache (outcomes i) c
      v location now (habs v (List.mem_cons_self v rest))
    have habs' : ∀ w ∈ rest,
        alistFind (makeKey w.name location)
          (researchVenueSafe useCache (outcomes i) c v location now).2.cache = none := by
      intro w hw
      refine hpres _ ?_ (habs w (List.mem_cons_of_mem v hw))
      intro heq
      exact hnd.1 (heq ▸ List.mem_map.mpr ⟨w, hw, rfl⟩)
    have htail := ih (i + 1)
      (researchVenueSafe useCache (outcomes i) c v location now).2 habs' hnd.2
    show (researchVenueSafe useCache (outcomes i) c v location now).1 ::
        (researchAll useCache outcomes location now rest (i + 1)
          (researchVenueSafe useCache (outcomes i) c v location now).2).1 = _
    rw [hstep, htail, List.mapIdx_cons]
    congr 1
    have hfun : (fun (j : ℕ) (w : Venue) =>
        (match outcomes (i + 1 + j) with
         | .ok r => r
         | .error _ => fallbackProfile w location))
        = fun (j : ℕ) (w : Venue) =>
        (match outcomes (i + (j + 1)) with
         | .ok r => r
         | .error _ => fallbackProfile w location) := by
      funext j w
      rw [show i + 1 + j = i + (j + 1) by omega]
    rw [hfun]

/-- **C2**: over candidates whose normalized cache keys are fresh and
distinct, the fan-out returns exactly one output per selected candidate (the
first `max_venues`), in input order: the collaborator's researched profile
where the call succeeded and the degraded fallback profile — status
`"failed"`, confidence `0.2` — where it raised; no per-venue exception
escapes the stage. -/
theorem enrichment_degrades_failures :
    (∀ (outcomes : ℕ → Except Unit VenueProfile) (venues : List Venue)
        (location : String) (maxVenues now : ℕ) (c : ResearchCache VenueProfile),
      ((venues.take maxVenues).map fun v => makeKey v.name location).Nodup →
      (∀ v ∈ venues.take maxVenues, alistFind (makeKey v.name location) c.cache = none) →
      (tavilyProcess true outcomes venues location maxVenues c now).1.length
        = (venues.take maxVenues).length ∧
      (tavilyProcess true outcomes venues location maxVenues c now).1
        = (venues.take maxVenues).mapIdx fun j v =>
            (match outcomes j with
             | .ok r => r
             | .error _ => fallbackProfile v location)) ∧
    (∀ (venue : Venue) (location : String),
      (fallbackProfile venue location).researchStatus = "failed" ∧
      (fallbackProfile venue location).researchConfidence = mkRat 1 5) := by
  constructor
  · intro outcomes venues location maxV now c hnd habs
    by_cases hv : venues = []
    · subst hv
      simp [tavilyProcess]
    · have h1 : (tavilyProcess true outcomes venues location maxV c now).1
          = (researchAll true outcomes location now (venues.take maxV) 0 c).1 := by
        simp only [tavilyProcess, if_neg hv]
      have h2 := researchAll_outputs true outcomes location now (venues.take maxV)
        0 c habs hnd
      have hfun : (fun (j : ℕ) (v : Venue) =>
          (match outcomes (0 + j) with
           | .ok r => r
           | .error _ => fallbackProfile v location))
          = fun (j : ℕ) (v : Venue) =>
          (match outcomes j with
           | .ok r => r
           | .error _ => fallbackProfile v location) := by
        funext j v
        rw [Nat.zero_add]
      rw [hfun] at h2
      constructor
      · rw [h1, h2, List.length_mapIdx]
      · rw [h1, h2]
  · intro venue location
    exact ⟨rfl, rfl⟩

/-- Witness for C2: enriching 8 candidates where the calls for 3 of them
raise yields exactly 8 ordered outputs, degraded exactly at those 3. -/
theorem enrichment_degrades_failures_witness :
    (tavilyProcess true fanoutOutcomes fanoutVenues "Boston, MA" 8
        (ResearchCache.init VenueProfile 60 200) 0).1.length
      = (fanoutVenues.take 8).length ∧
    (tavilyProcess true fanoutOutcomes fanoutVenues "Boston, MA" 8
        (ResearchCache.init VenueProfile 60 200) 0).1
      = (fanoutVenues.take 8).mapIdx fun j v =>
          (match fanoutOutcomes j with
           | .ok r => r
           | .error _ => fallbackProfile v "Boston, MA") :=
  enrichment_degrades_failures.1 fanoutOutcomes fanoutVenues "Boston, MA" 8 0
    (ResearchCache.init VenueProfile 60 200) (by decide) (by decide)

/-! ## C3 — the typo-tolerant matcher

First the arithmetic bounds: the Ratcliff–Obershelp ratio and the token
overlap both land in `[0, 1]`. -/

theorem matchLen_le_left (a : List Char) : ∀ b, matchLen a b ≤ a.length := by
  induction a with
  | nil => intro b; cases b <;> simp [matchLen]
  | cons x xs ih =>
    intro b
    cases b with
    | nil => simp [matchLen]
    | cons y ys =>
      by_cases h : x = y
      · simpa [matchLen, h] using ih ys
      · simp [matchLen, h]

theorem matchLen_le_right (a : List Char) : ∀ b, matchLen a b ≤ b.length := by
  induction a with
  | nil => intro b; cases b <;> simp [matchLen]
  | cons x xs ih =>
    intro b
    cases b with
    | nil => simp [matchLen]
    | cons y ys =>
      by_cases h : x = y
      · simpa [matchLen, h] using ih ys
      · simp [matchLen, h]

theorem flmAux_bound (a b : List Char) :
    ∀ (pairs : List (ℕ × ℕ)) (best : ℕ × ℕ × ℕ),
      best.1 + best.2.2 ≤ a.length → best.2.1 + best.2.2 ≤ b.length →
      (flmAux a b pairs best).1 + (flmAux a b pairs best).2.2 ≤ a.length ∧
      (flmAux a b pairs best).2.1 + (flmAux a b pairs best).2.2 ≤ b.length := by
  intro pairs
  induction pairs with
  | nil => intro best h1 h2; exact ⟨h1, h2⟩
  | cons p rest ih =>
    intro best h1 h2
    obtain ⟨i, j⟩ := p
    simp only [flmAux]
    by_cases hk : best.2.2 < matchLen (a.drop i) (b.drop j)
    · rw [if_pos hk]
      have hA := matchLen_le_left (a.drop i) (b.drop j)
      have hB := matchLen_le_right (a.drop i) (b.drop j)
      rw [List.length_drop] at hA
      rw [List.length_drop] at hB
      refine ih (i, j, matchLen (a.drop i) (b.drop j)) ?_ ?_
      · show i + matchLen (a.drop i) (b.drop j) ≤ a.length
        omega
      · show j + matchLen (a.drop i) (b.drop j) ≤ b.length
        omega
    · rw [if_neg hk]
      exact ih best h1 h2

theorem findLongestMatch_bound (a b : List Char) :
    (findLongestMatch a b).1 + (findLongestMatch a b).2.2 ≤ a.length ∧
    (findLongestMatch a b).2.1 + (findLongestMatch a b).2.2 ≤ b.length :=
  flmAux_bound a b _ (0, 0, 0) (by simp) (by simp)

theorem matchingTotal_le_left : ∀ (fuel : ℕ) (a b : List Char),
    matchingTotal fuel a b ≤ a.length := by
  intro fuel
  induction fuel with
  | zero => intro a b; simp [matchingTotal]
  | succ fuel ih =>
    intro a b
    simp only [matchingTotal]
    by_cases hk : (findLongestMatch a b).2.2 = 0
    · rw [if_pos hk]
      exact Nat.zero_le _
    · rw [if_neg hk]
      obtain ⟨hA, hB⟩ := findLongestMatch_bound a b
      have h1 := ih (a.take (findLongestMatch a b).1) (b.take (findLongestMatch a b).2.1)
      have h2 := ih (a.drop ((findLongestMatch a b).1 + (findLongestMatch a b).2.2))
        (b.drop ((findLongestMatch a b).2.1 + (findLongestMatch a b).2.2))
      rw [List.length_take] at h1
      rw [List.length_drop] at h2
      omega

theorem matchingTotal_le_right : ∀ (fuel : ℕ) (a b : List Char),
    matchingTotal fuel a b ≤ b.length := by
  intro fuel
  induction fuel with
  | zero => intro a b; simp [matchingTotal]
  | succ fuel ih =>
    intro a b
    simp only [matchingTotal]
    by_cases hk : (findLongestMatch a b).2.2 = 0
    · rw [if_pos hk]
      exact Nat.zero_le _
    · rw [if_neg hk]
      obtain ⟨hA, hB⟩ := findLongestMatch_bound a b
      have h1 := ih (a.take (findLongestMatch a b).1) (b.take (findLongestMatch a b).2.1)
      have h2 := ih (a.drop ((findLongestMatch a b).1 + (findLongestMatch a b).2.2))
        (b.drop ((findLongestMatch a b).2.1 + (findLongestMatch a b).2.2))
      rw [List.length_take] at h1
      rw [List.length_drop] at h2
      omega

theorem seqRatio_nonneg (a b : List Char) : 0 ≤ seqRatio a b := by
  simp only [seqRatio]
  split
  · exact zero_le_one
  · rw [Rat.mkRat_eq_div]
    positivity

theorem seqRatio_le_one (a b : List Char) : seqRatio a b ≤ 1 := by
  simp only [seqRatio]
  split
  · exact le_refl 1
  · rename_i ht
    have hpos : (0 : ℚ) < ((a.length + b.length : ℕ) : ℚ) := by
      exact_mod_cast Nat.pos_of_ne_zero ht
    rw [Rat.mkRat_eq_div, div_le_one hpos]
    have hA := matchingTotal_le_left (a.length + b.length + 1) a b
    have hB := matchingTotal_le_right (a.length + b.length + 1) a b
    exact_mod_cast (by omega :
      2 * matchingTotal (a.length + b.length + 1) a b ≤ a.length + b.length)

theorem calcSim_nonneg (s1 s2 : String) : 0 ≤ calculateStringSimilarity s1 s2 := by
  simp only [calculateStringSimilarity]
  split
  · exact le_refl 0
  · exact seqRatio_nonneg _ _

theorem calcSim_le_one (s1 s2 : String) : calculateStringSimilarity s1 s2 ≤ 1 := by
  simp only [calculateStringSimilarity]
  split
  · exact zero_le_one
  · exact seqRatio_le_one _ _

theorem overlapScore_nonneg (w1 w2 : Finset String) : 0 ≤ overlapScore w1 w2 := by
  simp only [overlapScore]
  split
  · rw [Rat.mkRat_eq_div]
    positivity
  · exact le_refl 0

theorem overlapScore_le_one (w1 w2 : Finset String) : overlapScore w1 w2 ≤ 1 := by
  simp only [overlapScore]
  split
  · rename_i h
    have hpos : (0 : ℚ) < (((w1 ∪ w2).card : ℕ) : ℚ) := by exact_mod_cast h
    rw [Rat.mkRat_eq_div]
    rw [div_le_one hpos]
    exact_mod_cast Finset.card_le_card Finset.inter_subset_union
  · exact zero_le_one

theorem tierScore_nonneg (vw : String) (ww : Finset String) (loc : LocEntry) :
    0 ≤ tierScore vw ww loc := by
  simp only [tierScore]
  split
  · exact zero_le_one
  split
  · decide
  split
  · exact calcSim_nonneg _ _
  split
  · exact overlapScore_nonneg _ _
  · exact le_refl 0

theorem tierScore_le_one (vw : String) (ww : Finset String) (loc : LocEntry) :
    tierScore vw ww loc ≤ 1 := by
  simp only [tierScore]
  split
  · exact le_refl 1
  split
  · decide
  split
  · exact calcSim_le_one _ _
  split
  · exact overlapScore_le_one _ _
  · exact zero_le_one

/-- The candidate scan keeps a best with the scores in `[0, 1]`, only ever
raises the running best, accepts only unused real candidates whose diagnostics
satisfy the tier relation, and dominates the tier score of every unused
candidate it scanned. -/
theorem scanLocs_spec (venueLower : String) (venueWords : Finset String) (used : Finset ℕ)
    (all : List (ℕ × LocEntry)) :
    ∀ (cands : List (ℕ × LocEntry)), (∀ p ∈ cands, p ∈ all) →
    ∀ best : BestMatch, 0 ≤ best.score → best.score ≤ 1 →
      (∀ loc idx, best.best? = some (loc, idx) → (idx, loc) ∈ all ∧ idx ∉ used ∧
        TierP venueLower venueWords loc best.score best.mtype) →
      0 ≤ (scanLocs venueLower venueWords used cands best).score ∧
      (scanLocs venueLower venueWords used cands best).score ≤ 1 ∧
      best.score ≤ (scanLocs venueLower venueWords used cands best).score ∧
      (∀ loc idx, (scanLocs venueLower venueWords used cands best).best? = some (loc, idx) →
        (idx, loc) ∈ all ∧ idx ∉ used ∧
        TierP venueLower venueWords loc (scanLocs venueLower venueWords used cands best).score
          (scanLocs venueLower venueWords used cands best).mtype) ∧
      (∀ p ∈ cands, p.1 ∉ used →
        tierScore venueLower venueWords p.2 ≤
          (scanLocs venueLower venueWords used cands best).score) := by
  intro cands
  induction cands with
  | nil =>
    intro _ best h0 h1 hinv
    exact ⟨h0, h1, le_refl _, hinv, by simp⟩
  | cons p rest ih =>
    intro hsub best h0 h1 hinv
    obtain ⟨idx, loc⟩ := p
    have hsubr : ∀ q ∈ rest, q ∈ all := fun q hq => hsub q (List.mem_cons_of_mem _ hq)
    have hmem : (idx, loc) ∈ all := hsub _ (List.mem_cons_self _ _)
    by_cases hu : idx ∈ used
    · have heq : scanLocs venueLower venueWords used ((idx, loc) :: rest) best
          = scanLocs venueLower venueWords used rest best := by
        simp only [scanLocs]
        rw [if_pos hu]
      have hres := ih hsubr best h0 h1 hinv
      rw [heq]
      refine ⟨hres.1, hres.2.1, hres.2.2.1, hres.2.2.2.1, ?_⟩
      intro q hq hqu
      rcases List.mem_cons.mp hq with hq | hq
      · exfalso
        apply hqu
        rw [hq]
        exact hu
      · exact hres.2.2.2.2 q hq hqu
    · by_cases hex : venueLower = pyNormalize loc.name
      · have heq : scanLocs venueLower venueWords used ((idx, loc) :: rest) best
            = { best? := some (loc, idx), score := 1, mtype := some "exact" } := by
          simp only [scanLocs]
          rw [if_neg hu, if_pos hex]
        rw [heq]
        refine ⟨zero_le_one, le_refl 1, h1, ?_, ?_⟩
        · intro loc' idx' h'
          simp only [Option.some.injEq, Prod.mk.injEq] at h'
          obtain ⟨hl, hi⟩ := h'
          subst hl
          subst hi
          exact ⟨hmem, hu, Or.inl ⟨rfl, rfl, hex⟩⟩
        · intro q hq hqu
          exact tierScore_le_one _ _ _
      · by_cases hsubstr : strIn venueLower (pyNormalize loc.name) = true ∨
            strIn (pyNormalize loc.name) venueLower = true
        · by_cases hlt : best.score < mkRat 9 10
          · have heq : scanLocs venueLower venueWords used ((idx, loc) :: rest) best
                = scanLocs venueLower venueWords used rest
                    { best? := some (loc, idx), score := mkRat 9 10,
                      mtype := some "substring" } := by
              simp only [scanLocs]
              rw [if_neg hu, if_neg hex, if_pos hsubstr, if_pos hlt]
            have hinv' : ∀ loc' idx',
                (({ best? := some (loc, idx), score := mkRat 9 10,
                    mtype := some "substring" } : BestMatch)).best? = some (loc', idx') →
                (idx', loc') ∈ all ∧ idx' ∉ used ∧
                TierP venueLower venueWords loc' (mkRat 9 10) (some "substring") := by
              intro loc' idx' h'
              simp only [Option.some.injEq, Prod.mk.injEq] at h'
              obtain ⟨hl, hi⟩ := h'
              subst hl
              subst hi
              exact ⟨hmem, hu, Or.inr (Or.inl ⟨rfl, rfl, hsubstr⟩)⟩
            have hres := ih hsubr _ (show (0 : ℚ) ≤ mkRat 9 10 by decide)
              (show (mkRat 9 10 : ℚ) ≤ 1 by decide) hinv'
            rw [heq]
            refine ⟨hres.1, hres.2.1, le_trans (le_of_lt hlt) hres.2.2.1,
              hres.2.2.2.1, ?_⟩
            intro q hq hqu
            rcases List.mem_cons.mp hq with hq | hq
            · have hts : tierScore venueLower venueWords q.2 = mkRat 9 10 := by
                rw [hq]
                simp only [tierScore]
                rw [if_neg hex, if_pos hsubstr]
              rw [hts]
              exact hres.2.2.1
            · exact hres.2.2.2.2 q hq hqu
          · have heq : scanLocs venueLower venueWords used ((idx, loc) :: rest) best
                = scanLocs venueLower venueWords used rest best := by
              simp only [scanLocs]
              rw [if_neg hu, if_neg hex, if_pos hsubstr, if_neg hlt]
            have hres := ih hsubr best h0 h1 hinv
            rw [heq]
            refine ⟨hres.1, hres.2.1, hres.2.2.1, hres.2.2.2.1, ?_⟩
            intro q hq hqu
            rcases List.mem_cons.mp hq with hq | hq
            · have hts : tierScore venueLower venueWords q.2 = mkRat 9 10 := by
                rw [hq]
                simp only [tierScore]
                rw [if_neg hex, if_pos hsubstr]
              rw [hts]
              exact le_trans (le_of_not_lt hlt) hres.2.2.1
            · exact hres.2.2.2.2 q hq hqu
        · by_cases hcsc : mkRat 17 20 ≤ calculateStringSimilarity venueLower
              (pyNormalize loc.name) ∧
              best.score < calculateStringSimilarity venueLower (pyNormalize loc.name)
          · have heq : scanLocs venueLower venueWords used ((idx, loc) :: rest) best
                = scanLocs venueLower venueWords used rest
                    { best? := some (loc, idx),
                      score := calculateStringSimilarity venueLower (pyNormalize loc.name),
                      mtype := some "typo_tolerant" } := by
              simp only [scanLocs]
              rw [if_neg hu, if_neg hex, if_neg hsubstr, if_pos hcsc]
            have hgate : ((venueLower.length : ℤ)
                - ((pyNormalize loc.name).length : ℤ)).natAbs ≤ 5 := by
              by_contra hg
              have hz : calculateStringSimilarity venueLower (pyNormalize loc.name) = 0 := by
                rw [calculateStringSimilarity, if_pos (by omega)]
              rw [hz] at hcsc
              exact absurd hcsc.1 (by decide)
            have hinv' : ∀ loc' idx',
                (({ best? := some (loc, idx),
                    score := calculateStringSimilarity venueLower (pyNormalize loc.name),
                    mtype := some "typo_tolerant" } : BestMatch)).best? = some (loc', idx') →
                (idx', loc') ∈ all ∧ idx' ∉ used ∧
                TierP venueLower venueWords loc'
                  (calculateStringSimilarity venueLower (pyNormalize loc.name))
                  (some "typo_tolerant") := by
              intro loc' idx' h'
              simp only [Option.some.injEq, Prod.mk.injEq] at h'
              obtain ⟨hl, hi⟩ := h'
              subst hl
              subst hi
              exact ⟨hmem, hu, Or.inr (Or.inr (Or.inl ⟨rfl, rfl, hcsc.1, hgate⟩))⟩
            have hres := ih hsubr
              { best? := some (loc, idx),
                score := calculateStringSimilarity venueLower (pyNormalize loc.name),
                mtype := some "typo_tolerant" }
              (calcSim_nonneg venueLower (pyNormalize loc.name))
              (calcSim_le_one venueLower (pyNormalize loc.name)) hinv'
            rw [heq]
            refine ⟨hres.1, hres.2.1, le_trans (le_of_lt hcsc.2) hres.2.2.1,
              hres.2.2.2.1, ?_⟩
            intro q hq hqu
            rcases List.mem_cons.mp hq with hq | hq
            · have hts : tierScore venueLower venueWords q.2
                  = calculateStringSimilarity venueLower (pyNormalize loc.name) := by
                rw [hq]
                simp only [tierScore]
                rw [if_neg hex, if_neg hsubstr, if_pos hcsc.1]
              rw [hts]
              exact hres.2.2.1
            · exact hres.2.2.2.2 q hq hqu
          · by_cases hw : venueWords.Nonempty ∧ (wordSet (pyNormalize loc.name)).Nonempty
            · by_cases hov : mkRat 1 2 ≤ overlapScore venueWords
                  (wordSet (pyNormalize loc.name)) ∧
                  best.score < overlapScore venueWords (wordSet (pyNormalize loc.name))
              · have heq : scanLocs venueLower venueWords used ((idx, loc) :: rest) best
                    = scanLocs venueLower venueWords used rest
                        { best? := some (loc, idx),
                          score := overlapScore venueWords (wordSet (pyNormalize loc.name)),
                          mtype := some "word_overlap" } := by
                  simp only [scanLocs]
                  rw [if_neg hu, if_neg hex, if_neg hsubstr, if_neg hcsc, if_pos hw,
                    if_pos hov]
                have hinv' : ∀ loc' idx',
                    (({ best? := some (loc, idx),
                        score := overlapScore venueWords (wordSet (pyNormalize loc.name)),
                        mtype := some "word_overlap" } : BestMatch)).best?
                      = some (loc', idx') →
                    (idx', loc') ∈ all ∧ idx' ∉ used ∧
                    TierP venueLower venueWords loc'
                      (overlapScore venueWords (wordSet (pyNormalize loc.name)))
                      (some "word_overlap") := by
                  intro loc' idx' h'
                  simp only [Option.some.injEq, Prod.mk.injEq] at h'
                  obtain ⟨hl, hi⟩ := h'
                  subst hl
                  subst hi
                  exact ⟨hmem, hu,
                    Or.inr (Or.inr (Or.inr ⟨rfl, rfl, hov.1, hw.1, hw.2⟩))⟩
                have hres := ih hsubr
                  { best? := some (loc, idx),
                    score := overlapScore venueWords (wordSet (pyNormalize loc.name)),
                    mtype := some "word_overlap" }
                  (overlapScore_nonneg venueWords (wordSet (pyNormalize loc.name)))
                  (overlapScore_le_one venueWords (wordSet (pyNormalize loc.name))) hinv'
                rw [heq]
                refine ⟨hres.1, hres.2.1, le_trans (le_of_lt hov.2) hres.2.2.1,
                  hres.2.2.2.1, ?_⟩
                intro q hq hqu
                rcases List.mem_cons.mp hq with hq | hq
                · have hts : tierScore venueLower venueWords q.2
                      ≤ overlapScore venueWords (wordSet (pyNormalize loc.name)) := by
                    rw [hq]
                    simp only [tierScore]
                    rw [if_neg hex, if_neg hsubstr]
                    by_cases hcs17 : mkRat 17 20 ≤ calculateStringSimilarity venueLower
                        (pyNormalize loc.name)
                    · rw [if_pos hcs17]
                      have hle : calculateStringSimilarity venueLower (pyNormalize loc.name)
                          ≤ best.score := by
                        by_contra hgt
                        exact hcsc ⟨hcs17, lt_of_not_le hgt⟩
                      exact le_trans hle (le_of_lt hov.2)
                    · rw [if_neg hcs17, if_pos ⟨hw.1, hw.2, hov.1⟩]
                  exact le_trans hts hres.2.2.1
                · exact hres.2.2.2.2 q hq hqu
              · have heq : scanLocs venueLower venueWords used ((idx, loc) :: rest) best
                    = scanLocs venueLower venueWords used rest best := by
                  simp only [scanLocs]
                  rw [if_neg hu, if_neg hex, if_neg hsubstr, if_neg hcsc, if_pos hw,
                    if_neg hov]
                have hres := ih hsubr best h0 h1 hinv
                rw [heq]
                refine ⟨hres.1, hres.2.1, hres.2.2.1, hres.2.2.2.1, ?_⟩
                intro q hq hqu
                rcases List.mem_cons.mp hq with hq | hq
                · have hts : tierScore venueLower venueWords q.2 ≤ best.score := by
                    rw [hq]
                    simp only [tierScore]
                    rw [if_neg hex, if_neg hsubstr]
                    by_cases hcs17 : mkRat 17 20 ≤ calculateStringSimilarity venueLower
                        (pyNormalize loc.name)
                    · rw [if_pos hcs17]
                      by_contra hgt
                      exact hcsc ⟨hcs17, lt_of_not_le hgt⟩
                    · rw [if_neg hcs17]
                      by_cases hov12 : mkRat 1 2 ≤ overlapScore venueWords
                          (wordSet (pyNormalize loc.name))
                      · rw [if_pos ⟨hw.1, hw.2, hov12⟩]
                        by_contra hgt
                        exact hov ⟨hov12, lt_of_not_le hgt⟩
                      · rw [if_neg (fun hc => hov12 hc.2.2)]
                        exact h0
                  exact le_trans hts hres.2.2.1
                · exact hres.2.2.2.2 q hq hqu
            · have heq : scanLocs venueLower venueWords used ((idx, loc) :: rest) best
                  = scanLocs venueLower venueWords used rest best := by
                simp only [scanLocs]
                rw [if_neg hu, if_neg hex, if_neg hsubstr, if_neg hcsc, if_neg hw]
              have hres := ih hsubr best h0 h1 hinv
              rw [heq]
              refine ⟨hres.1, hres.2.1, hres.2.2.1, hres.2.2.2.1, ?_⟩
              intro q hq hqu
              rcases List.mem_cons.mp hq with hq | hq
              · have hts : tierScore venueLower venueWords q.2 ≤ best.score := by
                  rw [hq]
                  simp only [tierScore]
                  rw [if_neg hex, if_neg hsubstr]
                  by_cases hcs17 : mkRat 17 20 ≤ calculateStringSimilarity venueLower
                      (pyNormalize loc.name)
                  · rw [if_pos hcs17]
                    by_contra hgt
                    exact hcsc ⟨hcs17, lt_of_not_le hgt⟩
                  · rw [if_neg hcs17, if_neg (fun hc => hw ⟨hc.1, hc.2.1⟩)]
                    exact h0
                exact le_trans hts hres.2.2.1
              · exact hres.2.2.2.2 q hq hqu

/-- The mention loop emits records in mention order (a sublist of the
mentions), each accepted record points at a real, previously unused candidate,
clears the 0.5 floor and satisfies the tier relation, accepted indices are
pairwise distinct, and each record's score dominates the tier score of every
candidate unused at its turn. -/
theorem matchLoop_spec (locs : List LocEntry) :
    ∀ (venues : List String) (used : Finset ℕ),
      ((matchLoop locs venues used).map MatchRec.mention).Sublist venues ∧
      (∀ r ∈ matchLoop locs venues used,
        locs.get? r.idx = some r.loc ∧ r.idx ∉ used ∧ mkRat 1 2 ≤ r.score ∧
        TierP (pyNormalize r.mention) (wordSet (pyNormalize r.mention))
          r.loc r.score r.mtype) ∧
      ((matchLoop locs venues used).map MatchRec.idx).Nodup ∧
      (∀ pre r post, matchLoop locs venues used = pre ++ r :: post →
        ∀ i loc, locs.get? i = some loc → i ∉ used → (∀ r' ∈ pre, r'.idx ≠ i) →
          tierScore (pyNormalize r.mention) (wordSet (pyNormalize r.mention)) loc
            ≤ r.score) := by
  intro venues
  induction venues with
  | nil =>
    intro used
    refine ⟨by simp [matchLoop], by simp [matchLoop], by simp [matchLoop], ?_⟩
    intro pre r post h
    exfalso
    have h' : pre ++ r :: post = [] := h.symm
    simp at h'
  | cons venueName rest ih =>
    intro used
    have hscan := scanLocs_spec (pyNormalize venueName) (wordSet (pyNormalize venueName))
      used locs.enum locs.enum (fun p hp => hp) initialBest (le_refl 0) zero_le_one
      (fun loc idx h => by simp [initialBest] at h)
    cases hb : (scanLocs (pyNormalize venueName) (wordSet (pyNormalize venueName)) used
        locs.enum initialBest).best? with
    | none =>
      have heq : matchLoop locs (venueName :: rest) used = matchLoop locs rest used := by
        simp only [matchLoop, hb]
      have hih := ih used
      rw [heq]
      exact ⟨(hih.1).cons _, hih.2.1, hih.2.2.1, hih.2.2.2⟩
    | some p =>
      obtain ⟨loc, idx⟩ := p
      have hbest := hscan.2.2.2.1 loc idx hb
      by_cases h12 : mkRat 1 2 ≤ (scanLocs (pyNormalize venueName)
          (wordSet (pyNormalize venueName)) used locs.enum initialBest).score
      · have heq : matchLoop locs (venueName :: rest) used
            = { mention := venueName, loc := loc, idx := idx,
                score := (scanLocs (pyNormalize venueName)
                  (wordSet (pyNormalize venueName)) used locs.enum initialBest).score,
                mtype := (scanLocs (pyNormalize venueName)
                  (wordSet (pyNormalize venueName)) used locs.enum initialBest).mtype }
              :: matchLoop locs rest (insert idx used) := by
          simp only [matchLoop, hb]
          rw [if_pos h12]
        have hih := ih (insert idx used)
        rw [heq]
        refine ⟨?_, ?_, ?_, ?_⟩
        · simp only [List.map_cons]
          exact (hih.1).cons₂ _
        · intro r hr
          rcases List.mem_cons.mp hr with hr | hr
          · subst hr
            refine ⟨?_, hbest.2.1, h12, hbest.2.2⟩
            rw [List.get?_eq_getElem?]
            exact List.mk_mem_enum_iff_getElem?.mp hbest.1
          · have h' := hih.2.1 r hr
            exact ⟨h'.1, fun hm => h'.2.1 (Finset.mem_insert_of_mem hm),
              h'.2.2.1, h'.2.2.2⟩
        · simp only [List.map_cons, List.nodup_cons]
          refine ⟨?_, hih.2.2.1⟩
          intro hmem
          rcases List.mem_map.mp hmem with ⟨r', hr', hidx⟩
          apply (hih.2.1 r' hr').2.1
          rw [hidx]
          exact Finset.mem_insert_self idx used
        · intro pre r post hdec i loc' hloc hiu hpre
          cases pre with
          | nil =>
            simp only [List.nil_append] at hdec
            injection hdec with h1 h2
            subst h1
            exact hscan.2.2.2.2 (i, loc')
              (List.mk_mem_enum_iff_getElem?.mpr (by rw [← List.get?_eq_getElem?]; exact hloc))
              hiu
          | cons rec' pre' =>
            simp only [List.cons_append] at hdec
            injection hdec with h1 h2
            have hne : idx ≠ i := by
              have h' := hpre rec' (List.mem_cons_self _ _)
              rw [← h1] at h'
              exact h'
            have hiu' : i ∉ insert idx used := by
              rw [Finset.mem_insert]
              rintro (h | h)
              · exact hne h.symm
              · exact hiu h
            exact hih.2.2.2 pre' r post h2 i loc' hloc hiu'
              (fun r' hr' => hpre r' (List.mem_cons_of_mem _ hr'))
      · have heq : matchLoop locs (venueName :: rest) used = matchLoop locs rest used := by
          simp only [matchLoop, hb]
          rw [if_neg h12]
        have hih := ih used
        rw [heq]
        exact ⟨(hih.1).cons _, hih.2.1, hih.2.2.1, hih.2.2.2⟩

/-- C3: the typo-tolerant matcher processes mentions in order, scores each
against the still-unused canonical candidates with the four tier rules (exact
1.0 with short-circuit, substring 0.9, character similarity at ratio ≥ 0.85
under a length gap of at most 5, token overlap at ≥ 0.5), accepts the
best-scoring candidate only at score ≥ 0.5, keeps the running best maximal
over the unused pool, and removes an accepted candidate from the pool, so each
canonical entity is matched to at most one mention per pass. -/
theorem typo_tolerant_matcher_spec (venues : List String) (locs : List LocEntry) :
    matchVenuesToLocations venues locs = (matchLoop locs venues ∅).map MatchRec.loc ∧
    ((matchLoop locs venues ∅).map MatchRec.mention).Sublist venues ∧
    (∀ r ∈ matchLoop locs venues ∅,
      locs.get? r.idx = some r.loc ∧ mkRat 1 2 ≤ r.score ∧
      TierP (pyNormalize r.mention) (wordSet (pyNormalize r.mention))
        r.loc r.score r.mtype) ∧
    ((matchLoop locs venues ∅).map MatchRec.idx).Nodup ∧
    (∀ pre r post, matchLoop locs venues ∅ = pre ++ r :: post →
      ∀ i loc, locs.get? i = some loc → (∀ r' ∈ pre, r'.idx ≠ i) →
        tierScore (pyNormalize r.mention) (wordSet (pyNormalize r.mention)) loc
          ≤ r.score) := by
  have h := matchLoop_spec locs venues ∅
  refine ⟨rfl, h.1, ?_, h.2.2.1, ?_⟩
  · intro r hr
    have h' := h.2.1 r hr
    exact ⟨h'.1, h'.2.2.1, h'.2.2.2⟩
  · intro pre r post hdec i loc hloc hpre
    exact h.2.2.2 pre r post hdec i loc hloc (Finset.not_mem_empty i) hpre

/-- Witness for C3: on the mention "Museum of Fine Arts" against two canonical
entries, the matcher accepts the substring-tier record at index 0 with score
0.9; the theorem's per-record conjunct is instantiated at that concrete
record. -/
theorem typo_tolerant_matcher_spec_witness :
    ([(⟨"Museum of Fine Arts, Boston", "465 Huntington Ave"⟩ : LocEntry),
      ⟨"MIT Museum", "314 Main St"⟩].get? 0
      = some ⟨"Museum of Fine Arts, Boston", "465 Huntington Ave"⟩) ∧
    mkRat 1 2 ≤ mkRat 9 10 :=
  have h := (typo_tolerant_matcher_spec ["Museum of Fine Arts"]
      [⟨"Museum of Fine Arts, Boston", "465 Huntington Ave"⟩,
       ⟨"MIT Museum", "314 Main St"⟩]).2.2.1
    { mention := "Museum of Fine Arts",
      loc := ⟨"Museum of Fine Arts, Boston", "465 Huntington Ave"⟩,
      idx := 0, score := mkRat 9 10, mtype := some "substring" } (by decide)
  ⟨h.1, h.2.1⟩

/-- Witness for C4 at a concrete cache and key pair. -/

theorem cache_get_after_set_witness :
    (((ResearchCache.init ℕ 60 200).set "Cafe X " "Boston" 7 0).get "cafe x" " boston" 60).1
        = some 7 ∧
    (((ResearchCache.init ℕ 60 200).set "Cafe X " "Boston" 7 0).get "cafe x" " boston" 61).1
        = none := by
  have h₁ := cache_get_after_set (ResearchCache.init ℕ 60 200)
    (by simp [CacheWF, ResearchCache.init])
    "Cafe X " "Boston" "cafe x" " boston" 7 0 60 (by decide) (by decide)
  have h₂ := cache_get_after_set (ResearchCache.init ℕ 60 200)
    (by simp [CacheWF, ResearchCache.init])
    "Cafe X " "Boston" "cafe x" " boston" 7 0 61 (by decide) (by decide)
  exact ⟨(h₁.1 (by decide)).1, (h₂.2 (by decide)).1⟩

end MiniQuest
